import Mathlib

/-! The file `fs/overlayfs/super.c`: mount-time assembly of an overlay filesystem.

A shallow embedding of the parts of `fs/overlayfs/super.c` that split the
`lowerdir=` option, validate the layers, create the work directory and
revalidate dentries, followed by theorems about them.

Conventions of the embedding.

* A `char` buffer is a `List Nat` of byte values; index `i` of the list is the
  byte `buf[i]`.  The bytes that matter to the code are `0` (the terminator),
  `58` (the colon) and `92` (the backslash).  A read outside the list is a
  fault and makes the function return `none`.
* `unsigned int` arithmetic is arithmetic modulo `2 ^ 32`.
* Calls that leave `super.c` (the VFS, the allocator, the other overlayfs
  files) are fields of an explicit record of oracles.  Every oracle receives
  the list of events performed so far, so that its answer may depend on the
  whole history of the mount; each call is appended to that list.
* Constants that come from kernel headers are fields of a record of
  constants; the theorems hold for every value of them.
* The two string loops also come in a variant that records every access to the
  buffer; the variant is proved to compute what the loop computes.
-/

namespace Overlayfs

/-! ## Splitting the `lowerdir=` string -/

/-- The loop of `ovl_split_lowerdirs` (super.c:561-572).  `s` and `d` are the
read and write positions in `buf`, `ctr` the number of segments so far.  Every
iteration advances `s`, so `fuel` bounds the number of iterations. -/
def ovl_split_lowerdirs_loop : Nat → List Nat → Nat → Nat → Nat → Option (Nat × List Nat)
  | 0, _, _, _, _ => none
  | fuel + 1, buf, s, d, ctr =>
    match buf[s]? with
    | none => none
    | some c =>
      if c = 92 then
        -- `s++`, then `*d = *s; if (!*s) break;`
        match buf[s + 1]? with
        | none => none
        | some c1 =>
          let buf1 := buf.set d c1
          match buf1[s + 1]? with
          | none => none
          | some c2 =>
            if c2 = 0 then some (ctr, buf1)
            else ovl_split_lowerdirs_loop fuel buf1 (s + 2) (d + 1) ctr
      else if c = 58 then
        -- `*d = '\0'; ctr++; continue;`
        ovl_split_lowerdirs_loop fuel (buf.set d 0) (s + 1) (d + 1) ((ctr + 1) % 2 ^ 32)
      else
        -- `*d = *s; if (!*s) break;`
        let buf1 := buf.set d c
        match buf1[s]? with
        | none => none
        | some c2 =>
          if c2 = 0 then some (ctr, buf1)
          else ovl_split_lowerdirs_loop fuel buf1 (s + 1) (d + 1) ctr

/-- The function `ovl_split_lowerdirs` (super.c:556-574) on the buffer `str`:
the returned count and the buffer as the function leaves it. -/
def ovl_split_lowerdirs (str : List Nat) : Option (Nat × List Nat) :=
  ovl_split_lowerdirs_loop str.length str 0 0 1

/-- The loop of `ovl_unescape` (super.c:444-450). -/
def ovl_unescape_loop : Nat → List Nat → Nat → Nat → Option (List Nat)
  | 0, _, _, _ => none
  | fuel + 1, buf, s, d =>
    match buf[s]? with
    | none => none
    | some c =>
      -- `if (*s == '\\') s++;`
      let s1 := if c = 92 then s + 1 else s
      match buf[s1]? with
      | none => none
      | some c1 =>
        let buf1 := buf.set d c1
        match buf1[s1]? with
        | none => none
        | some c2 =>
          if c2 = 0 then some buf1
          else ovl_unescape_loop fuel buf1 (s1 + 1) (d + 1)

/-- The function `ovl_unescape` (super.c:440-451): the buffer as it leaves it. -/
def ovl_unescape (s : List Nat) : Option (List Nat) :=
  ovl_unescape_loop s.length s 0 0

/-- The C string that starts at index `i` of `buf`: the bytes before the first
terminator at or after `i`. -/
def cstr_at (buf : List Nat) (i : Nat) : List Nat :=
  (buf.drop i).takeWhile (fun c => c != 0)

/-- The result of `strchr(buf + i, '\0')` as an index into `buf`; `none` when
there is no terminator at or after `i`. -/
def strchr_nul (buf : List Nat) (i : Nat) : Option Nat :=
  if i + (cstr_at buf i).length < buf.length then some (i + (cstr_at buf i).length) else none

/-- The buffer `kstrdup(s, GFP_KERNEL)` returns when the allocation succeeds:
the bytes of the C string `s` and its terminator. -/
def kstrdup (s : List Nat) : List Nat :=
  s.takeWhile (fun c => c != 0) ++ [0]

/-- The names that the loop of `ovl_fill_super` (super.c:806-814) hands to
`ovl_lower_dir`: `lower` starts at `i` and moves to `strchr(lower, '\0') + 1`
after each of the `n` names. -/
def lower_names (buf : List Nat) : Nat → Nat → List (List Nat)
  | 0, _ => []
  | n + 1, i => cstr_at buf i :: lower_names buf n (i + (cstr_at buf i).length + 1)

/-- Escaping of one path for the `lowerdir=` option: a backslash before every
colon and every backslash. -/
def escape_path (p : List Nat) : List Nat :=
  p.flatMap (fun c => if c = 92 ∨ c = 58 then [92, c] else [c])

/-- The escaped paths joined with colons. -/
def join_lowerdirs : List (List Nat) → List Nat
  | [] => []
  | [p] => escape_path p
  | p :: q :: ps => escape_path p ++ 58 :: join_lowerdirs (q :: ps)

/-- What the loop of `ovl_split_lowerdirs` writes, and how many separators it
counts, while it consumes the bytes `rest` up to their terminator. -/
def split_ref : List Nat → Option (List Nat × Nat)
  | [] => none
  | c :: rest =>
    if c = 92 then
      match rest with
      | [] => none
      | c1 :: rest1 =>
        if c1 = 0 then some ([0], 0)
        else (split_ref rest1).map (fun r => (c1 :: r.1, r.2))
    else if c = 58 then (split_ref rest).map (fun r => (0 :: r.1, r.2 + 1))
    else if c = 0 then some ([0], 0)
    else (split_ref rest).map (fun r => (c :: r.1, r.2))

/-- The bytes `ovl_split_lowerdirs` leaves at the start of the buffer for the
paths `ps`: every path followed by its terminator, back to back. -/
def stored_names : List (List Nat) → List Nat
  | [] => []
  | p :: ps => p ++ 0 :: stored_names ps

/-! ## Constants and objects of the kernel -/

/-- The constants `super.c` takes from kernel headers (errno numbers, flag bits,
the stacking limit, the largest errno an error pointer can carry).  The model is
parametric in them. -/
structure KConst where
  EINVAL : Int
  ENOMEM : Int
  EEXIST : Int
  ESTALE : Int
  ENODATA : Int
  EOPNOTSUPP : Int
  MS_RDONLY : Nat
  MS_POSIXACL : Nat
  MS_NOREMOTELOCK : Nat
  LOOKUP_RCU : Nat
  DCACHE_OP_REVALIDATE : Nat
  DCACHE_OP_WEAK_REVALIDATE : Nat
  FILESYSTEM_MAX_STACK_DEPTH : Int
  MAX_ERRNO : Int

/-- The values of the constants in Linux 4.x, used for the concrete runs. -/
def linux_consts : KConst where
  EINVAL := 22
  ENOMEM := 12
  EEXIST := 17
  ESTALE := 116
  ENODATA := 61
  EOPNOTSUPP := 95
  MS_RDONLY := 1
  MS_POSIXACL := 65536
  MS_NOREMOTELOCK := 134217728
  LOOKUP_RCU := 64
  DCACHE_OP_REVALIDATE := 4
  DCACHE_OP_WEAK_REVALIDATE := 2048
  FILESYSTEM_MAX_STACK_DEPTH := 2
  MAX_ERRNO := 4095

/-- `#define OVL_MAX_STACK 500` (super.c:30). -/
def OVL_MAX_STACK : Nat := 500

/-! ## Dentry revalidation -/

/-- A dentry of `oe->lowerstack[]` as the revalidation functions see it: its
`d_flags` and the two hooks of its `d_op`, each a function of the `flags`
argument it is called with. -/
structure LowerDentry where
  d_flags : Nat
  d_revalidate : Nat → Int
  d_weak_revalidate : Nat → Int

/-- What the revalidation functions do to the lower dentries: calls of the
hooks of `lowerstack[i]` and `d_invalidate(lowerstack[i].dentry)`. -/
inductive RevalEvent where
  | d_revalidate (i : Nat)
  | d_weak_revalidate (i : Nat)
  | d_invalidate (i : Nat)
  deriving DecidableEq, Repr

/-- The loop of `ovl_dentry_revalidate` (super.c:99-113) from index `i` on, over
the remaining entries of `oe->lowerstack`. -/
def ovl_dentry_revalidate_loop (K : KConst) (flags : Nat) :
    List LowerDentry → Nat → List RevalEvent → Int × List RevalEvent
  | [], _, tr => (1, tr)
  | d :: ds, i, tr =>
    if d.d_flags &&& K.DCACHE_OP_REVALIDATE ≠ 0 then
      let ret := d.d_revalidate flags
      let tr1 := tr ++ [RevalEvent.d_revalidate i]
      if ret < 0 then (ret, tr1)
      else if ret = 0 then
        if flags &&& K.LOOKUP_RCU = 0 then (-K.ESTALE, tr1 ++ [RevalEvent.d_invalidate i])
        else (-K.ESTALE, tr1)
      else ovl_dentry_revalidate_loop K flags ds (i + 1) tr1
    else ovl_dentry_revalidate_loop K flags ds (i + 1) tr

/-- The function `ovl_dentry_revalidate` (super.c:93-114): the value returned
and the calls made, in order. -/
def ovl_dentry_revalidate (K : KConst) (lowerstack : List LowerDentry) (flags : Nat) :
    Int × List RevalEvent :=
  ovl_dentry_revalidate_loop K flags lowerstack 0 []

/-- The loop of `ovl_dentry_weak_revalidate` (super.c:122-131); `ret` is the
local variable of that name. -/
def ovl_dentry_weak_revalidate_loop (K : KConst) (flags : Nat) :
    List LowerDentry → Nat → Int → List RevalEvent → Int × List RevalEvent
  | [], _, ret, tr => (ret, tr)
  | d :: ds, i, ret, tr =>
    if d.d_flags &&& K.DCACHE_OP_WEAK_REVALIDATE ≠ 0 then
      let ret1 := d.d_weak_revalidate flags
      let tr1 := tr ++ [RevalEvent.d_weak_revalidate i]
      if ret1 ≤ 0 then (ret1, tr1)
      else ovl_dentry_weak_revalidate_loop K flags ds (i + 1) ret1 tr1
    else ovl_dentry_weak_revalidate_loop K flags ds (i + 1) ret tr

/-- The function `ovl_dentry_weak_revalidate` (super.c:116-132). -/
def ovl_dentry_weak_revalidate (K : KConst) (lowerstack : List LowerDentry) (flags : Nat) :
    Int × List RevalEvent :=
  ovl_dentry_weak_revalidate_loop K flags lowerstack 0 1 []

/-! ## Objects of the VFS -/

/-- The fields of the `struct super_block` of an underlying filesystem that
`super.c` reads. -/
structure SuperBlock where
  s_flags : Nat
  s_stack_depth : Int
  deriving DecidableEq, Repr

/-- A `struct vfsmount`; `id` stands for its address. -/
structure Mount where
  id : Nat
  mnt_sb : SuperBlock
  deriving DecidableEq, Repr

/-- A `struct dentry`; `id` stands for its address, `d_inode` is `none` for a
negative dentry, and `weird`, `remote` and `is_dir` are the results of
`ovl_dentry_weird`, `ovl_dentry_remote` and `d_is_dir` on it. -/
structure Dentry where
  id : Nat
  d_inode : Option Nat
  weird : Bool
  remote : Bool
  is_dir : Bool
  deriving DecidableEq, Repr

/-- A `struct path`. -/
structure Path where
  mnt : Mount
  dentry : Dentry
  deriving DecidableEq, Repr

/-- The `struct ovl_config` that `ovl_parse_opt` fills in; a string is `none`
when the pointer is `NULL`. -/
structure Config where
  lowerdir : Option (List Nat)
  upperdir : Option (List Nat)
  workdir : Option (List Nat)
  default_permissions : Bool
  redirect_dir : Bool
  deriving DecidableEq, Repr

/-- The messages of `super.c` that the mount can print. -/
inductive Msg where
  | missing_lowerdir
  | missing_workdir
  | upper_fs_is_ro
  | not_same_mount
  | not_separate_subtrees
  | too_many_lower
  | need_two_lowerdir
  | max_depth_exceeded
  | clone_upperpath_failed
  | workdir_create_failed (errno : Int)
  | no_d_type
  | no_tmpfile
  | clone_lowerpath_failed
  | empty_lowerdir
  | resolve_failed (err : Int)
  | fs_not_supported
  | not_a_directory
  | not_supported_as_upperdir
  | statfs_failed
  deriving DecidableEq, Repr

/-- The two extended attributes `ovl_workdir_create` removes. -/
inductive Xattr where
  | POSIX_ACL_DEFAULT
  | POSIX_ACL_ACCESS
  deriving DecidableEq, Repr

/-- The calls that leave `super.c` during a mount, and the messages printed. -/
inductive Event where
  | kzalloc
  | kstrdup
  | kcalloc
  | ovl_parse_opt
  | kern_path (name : List Nat)
  | path_put
  | vfs_statfs
  | lock_rename
  | unlock_rename
  | clone_private_mount
  | mnt_want_write
  | mnt_drop_write
  | inode_lock
  | inode_unlock
  | lookup_one_len
  | ovl_workdir_cleanup
  | dput
  | ovl_create_real
  | vfs_removexattr (x : Xattr)
  | notify_change
  | ovl_check_d_type_supported
  | ovl_do_tmpfile
  | prepare_creds
  | ovl_alloc_entry
  | d_make_root
  | pr_err (m : Msg)
  | pr_warn (m : Msg)
  deriving DecidableEq, Repr

/-- The functions outside `super.c` that the mount calls.  Each receives the
events performed so far.  A function that returns an `int` returns `0` or a
negative errno; a function that returns a pointer returns `.ok` of the object
or `.error e` for the error pointer `ERR_PTR(e)`, with `e` an errno from
`-MAX_ERRNO` to `-1`; `kern_path` and `vfs_statfs` return `.error e`
for a non-zero `e` and `.ok` of what they fill in otherwise.  `kmalloc` tells
whether an allocation (`kzalloc`, `kstrdup`, `kcalloc`) succeeds. -/
structure Kernel where
  consts : KConst
  kmalloc : List Event → Bool
  ovl_parse_opt : List Event → List Nat → Int × Config
  kern_path : List Event → List Nat → Except Int Path
  vfs_statfs : List Event → Path → Except Int Int
  lock_rename : List Event → Dentry → Dentry → Option Dentry
  clone_private_mount : List Event → Path → Except Int Mount
  mnt_want_write : List Event → Mount → Int
  lookup_one_len : List Event → Dentry → Except Int Dentry
  ovl_create_real : List Event → Dentry → Int
  vfs_removexattr : List Event → Dentry → Xattr → Int
  notify_change : List Event → Dentry → Int
  ovl_check_d_type_supported : List Event → Path → Int
  ovl_do_tmpfile : List Event → Dentry → Except Int Dentry
  prepare_creds : List Event → Bool
  ovl_alloc_entry : List Event → Bool
  d_make_root : List Event → Bool

/-! ## The work directory -/

/-- The label `out_dput` of `ovl_workdir_create` (super.c:434-437, then
428-432): `dput(work)`, the result `ERR_PTR(err)`, unlock and return. -/
def ovl_workdir_create_out_dput (err : Int) (tr : List Event) :
    Except Int Dentry × List Event :=
  (.error err, tr ++ [Event.dput, Event.inode_unlock, Event.mnt_drop_write])

/-- The part of `ovl_workdir_create` after a lookup that found no existing
entry (super.c:394-432): create the directory, remove the ACL attributes, clear
the mode bits. -/
def ovl_workdir_create_mkdir (K : Kernel) (work : Dentry) (tr : List Event) :
    Except Int Dentry × List Event :=
  let err := K.ovl_create_real tr work
  let tr := tr ++ [Event.ovl_create_real]
  if err ≠ 0 then ovl_workdir_create_out_dput err tr
  else
    let err := K.vfs_removexattr tr work Xattr.POSIX_ACL_DEFAULT
    let tr := tr ++ [Event.vfs_removexattr Xattr.POSIX_ACL_DEFAULT]
    if err ≠ 0 ∧ err ≠ -K.consts.ENODATA ∧ err ≠ -K.consts.EOPNOTSUPP then
      ovl_workdir_create_out_dput err tr
    else
      let err := K.vfs_removexattr tr work Xattr.POSIX_ACL_ACCESS
      let tr := tr ++ [Event.vfs_removexattr Xattr.POSIX_ACL_ACCESS]
      if err ≠ 0 ∧ err ≠ -K.consts.ENODATA ∧ err ≠ -K.consts.EOPNOTSUPP then
        ovl_workdir_create_out_dput err tr
      else
        let err := K.notify_change (tr ++ [Event.inode_lock]) work
        let tr := tr ++ [Event.inode_lock, Event.notify_change, Event.inode_unlock]
        if err ≠ 0 then ovl_workdir_create_out_dput err tr
        else (.ok work, tr ++ [Event.inode_unlock, Event.mnt_drop_write])

/-- The code of `ovl_workdir_create` from the label `retry` on (super.c:373-437).
`retried` is the local variable of that name; `fuel` bounds the number of passes
through the label. -/
def ovl_workdir_create_retry (K : Kernel) (dentry : Dentry) :
    Nat → Bool → List Event → Option (Except Int Dentry × List Event)
  | 0, _, _ => none
  | fuel + 1, retried, tr =>
    match K.lookup_one_len tr dentry with
    | .error e =>
      -- `IS_ERR(work)`: fall to `out_unlock` and return `work`
      some (.error e, tr ++ [Event.lookup_one_len, Event.inode_unlock, Event.mnt_drop_write])
    | .ok work =>
      let tr := tr ++ [Event.lookup_one_len]
      if work.d_inode.isSome then
        -- `err = -EEXIST;`
        if retried then some (ovl_workdir_create_out_dput (-K.consts.EEXIST) tr)
        else
          -- `retried = true; ovl_workdir_cleanup(...); dput(work); goto retry;`
          ovl_workdir_create_retry K dentry fuel true
            (tr ++ [Event.ovl_workdir_cleanup, Event.dput])
      else some (ovl_workdir_create_mkdir K work tr)

/-- The function `ovl_workdir_create` (super.c:360-438), called with the events
`tr` behind it: the pointer it returns and the events after it. -/
def ovl_workdir_create (K : Kernel) (mnt : Mount) (dentry : Dentry) (tr : List Event) :
    Option (Except Int Dentry × List Event) :=
  let err := K.mnt_want_write tr mnt
  let tr := tr ++ [Event.mnt_want_write]
  if err ≠ 0 then some (.error err, tr)
  else ovl_workdir_create_retry K dentry 2 false (tr ++ [Event.inode_lock])

/-! ## Validation of one directory -/

/-- The function `ovl_mount_dir_noesc` (super.c:453-481) on the C string `name`
(its bytes before the terminator): the path it fills in, or the error. -/
def ovl_mount_dir_noesc (K : Kernel) (tr : List Event) (name : List Nat) :
    Except Int Path × List Event :=
  if name = [] then
    -- `!*name`
    (.error (-K.consts.EINVAL), tr ++ [Event.pr_err Msg.empty_lowerdir])
  else
    match K.kern_path tr name with
    | .error err => (.error err, tr ++ [Event.kern_path name, Event.pr_err (Msg.resolve_failed err)])
    | .ok path =>
      let tr := tr ++ [Event.kern_path name]
      if path.dentry.weird then
        (.error (-K.consts.EINVAL), tr ++ [Event.pr_err Msg.fs_not_supported, Event.path_put])
      else if !path.dentry.is_dir then
        (.error (-K.consts.EINVAL), tr ++ [Event.pr_err Msg.not_a_directory, Event.path_put])
      else (.ok path, tr)

/-- The function `ovl_mount_dir` (super.c:483-502) on the C string `name`; `none`
when `ovl_unescape` leaves the copy of the name. -/
def ovl_mount_dir (K : Kernel) (tr : List Event) (name : List Nat) :
    Option (Except Int Path × List Event) :=
  if K.kmalloc tr then
    match ovl_unescape (kstrdup name) with
    | none => none
    | some tmp =>
      match ovl_mount_dir_noesc K (tr ++ [Event.kstrdup]) (cstr_at tmp 0) with
      | (.error err, tr) => some (.error err, tr)
      | (.ok path, tr) =>
        if path.dentry.remote then
          some (.error (-K.consts.EINVAL),
            tr ++ [Event.pr_err Msg.not_supported_as_upperdir, Event.path_put])
        else some (.ok path, tr)
  else some (.error (-K.consts.ENOMEM), tr ++ [Event.kstrdup])

/-- The function `ovl_check_namelen` (super.c:504-516): the new value of
`ofs->namelen`, or the error of `vfs_statfs`. -/
def ovl_check_namelen (K : Kernel) (tr : List Event) (path : Path) (namelen : Int) :
    Except Int Int × List Event :=
  match K.vfs_statfs tr path with
  | .error err => (.error err, tr ++ [Event.vfs_statfs, Event.pr_err Msg.statfs_failed])
  | .ok f_namelen => (.ok (max namelen f_namelen), tr ++ [Event.vfs_statfs])

/-- What a successful `ovl_lower_dir` leaves behind: the path and the new values
of `ofs->namelen`, `*stack_depth` and `*remote`. -/
structure LowerDir where
  path : Path
  namelen : Int
  stack_depth : Int
  remote : Bool
  deriving DecidableEq, Repr

/-- The function `ovl_lower_dir` (super.c:518-542), called with the current
values of `ofs->namelen`, `*stack_depth` and `*remote`. -/
def ovl_lower_dir (K : Kernel) (tr : List Event) (name : List Nat) (namelen : Int)
    (stack_depth : Int) (remote : Bool) : Except Int LowerDir × List Event :=
  match ovl_mount_dir_noesc K tr name with
  | (.error err, tr) => (.error err, tr)
  | (.ok path, tr) =>
    match ovl_check_namelen K tr path namelen with
    | (.error err, tr) => (.error err, tr ++ [Event.path_put])
    | (.ok namelen, tr) =>
      (.ok { path := path
             namelen := namelen
             stack_depth := max stack_depth path.mnt.mnt_sb.s_stack_depth
             remote := if path.dentry.remote then true else remote }, tr)

/-- The function `ovl_workdir_ok` (super.c:545-554); two dentries are the same
pointer when their addresses are equal. -/
def ovl_workdir_ok (K : Kernel) (tr : List Event) (workdir upperdir : Dentry) :
    Bool × List Event :=
  if workdir.id ≠ upperdir.id then
    ((K.lock_rename tr workdir upperdir).isNone,
      tr ++ [Event.lock_rename, Event.unlock_rename])
  else (false, tr)

/-! ## `ovl_fill_super` -/

/-- The dentry-operations tables of `super.c` (super.c:134-144). -/
inductive DentryOps where
  | ovl_dentry_operations
  | ovl_reval_dentry_operations
  deriving DecidableEq, Repr

/-- The state of a mount in progress: the events so far, the fields of the new
super block `sb` and of `ufs` that `ovl_fill_super` writes, and its local
variables.  `stack` holds `stack[0 .. numlower)`, `lower_mnt` holds
`ufs->lower_mnt[0 .. ufs->numlower)`; a pointer that is `NULL` is `none`. -/
structure OvlState where
  trace : List Event
  config : Config
  s_flags : Nat
  s_stack_depth : Int
  s_d_op : Option DentryOps
  namelen : Int
  upperpath : Option Path
  workpath : Option Path
  lowertmp : List Nat
  stacklen : Nat
  stack : List Path
  remote : Bool
  upper_mnt : Option Mount
  workdir : Option Dentry
  tmpfile : Bool
  lower_mnt : List Mount
  deriving DecidableEq, Repr

/-- How a block of `ovl_fill_super` ends: it falls through to the next
statement (`next`), it jumps to a cleanup label and the function returns `err`
(`ret`, with the state at the jump), or it leaves the defined behaviour of C
(`fault`: a read outside a buffer, the use of a path that was never resolved or
of a pointer that is no dentry, a loop that outlives its bound).  For the whole
function `next` is the `return 0` of super.c:949. -/
inductive Step (α : Type) where
  | next (a : α)
  | ret (err : Int) (st : OvlState)
  | fault

/-- Sequencing of blocks. -/
def Step.andThen {α β : Type} (x : Step α) (f : α → Step β) : Step β :=
  match x with
  | .next a => f a
  | .ret err st => .ret err st
  | .fault => .fault

/-- The value `ovl_fill_super` returns, when it returns. -/
def Step.value (x : Step OvlState) : Option Int :=
  match x with
  | .next _ => some 0
  | .ret err _ => some err
  | .fault => none

/-- The state `ovl_fill_super` leaves behind, when it returns. -/
def Step.state (x : Step OvlState) : Option OvlState :=
  match x with
  | .next st => some st
  | .ret _ st => some st
  | .fault => none

/-- The value of `(int) PTR_ERR(p)` for a valid pointer `p` with address `id`:
the low 32 bits of the address as a signed number. -/
def ptr_err_int (id : Nat) : Int :=
  ((id + 2 ^ 31) % 2 ^ 32 : Nat) - 2 ^ 31

/-- Lines 728-744 of `ovl_fill_super`: allocate `ufs`, parse the options, require
`lowerdir`.  `s_flags` is the value of `sb->s_flags` on entry. -/
def ovl_fill_super_config (K : Kernel) (s_flags : Nat) (data : List Nat) (silent : Int) :
    Step OvlState :=
  let st : OvlState :=
    { trace := [Event.kzalloc]
      config := ⟨none, none, none, false, false⟩
      s_flags := s_flags
      s_stack_depth := 0
      s_d_op := none
      namelen := 0
      upperpath := none
      workpath := none
      lowertmp := []
      stacklen := 0
      stack := []
      remote := false
      upper_mnt := none
      workdir := none
      tmpfile := false
      lower_mnt := [] }
  if K.kmalloc [] then
    let r := K.ovl_parse_opt st.trace data
    let st := { st with config := r.2, trace := st.trace ++ [Event.ovl_parse_opt] }
    if r.1 ≠ 0 then .ret r.1 st
    else if st.config.lowerdir.isNone then
      .ret (-K.consts.EINVAL)
        { st with trace := st.trace ++
            (if silent = 0 then [Event.pr_err Msg.missing_lowerdir] else []) }
    else .next st
  else .ret (-K.consts.ENOMEM) st

/-- Lines 746-771 of `ovl_fill_super`: resolve `upperdir` and `workdir` when an
`upperdir` is configured. -/
def ovl_fill_super_upper_paths (K : Kernel) (st : OvlState) : Step OvlState :=
  let st := { st with s_stack_depth := 0 }
  match st.config.upperdir with
  | none => .next st
  | some upperdir =>
    match st.config.workdir with
    | none => .ret (-K.consts.EINVAL)
        { st with trace := st.trace ++ [Event.pr_err Msg.missing_workdir] }
    | some workdir =>
      match ovl_mount_dir K st.trace upperdir with
      | none => .fault
      | some (.error err, tr) => .ret err { st with trace := tr }
      | some (.ok upperpath, tr) =>
        let st := { st with trace := tr, upperpath := some upperpath }
        if upperpath.mnt.mnt_sb.s_flags &&& K.consts.MS_RDONLY ≠ 0 then
          .ret (-K.consts.EINVAL)
            { st with trace := st.trace ++ [Event.pr_err Msg.upper_fs_is_ro] }
        else
          match ovl_check_namelen K st.trace upperpath st.namelen with
          | (.error err, tr) => .ret err { st with trace := tr }
          | (.ok namelen, tr) =>
            let st := { st with trace := tr, namelen := namelen }
            match ovl_mount_dir K st.trace workdir with
            | none => .fault
            | some (.error err, tr) => .ret err { st with trace := tr }
            | some (.ok workpath, tr) =>
              .next { st with trace := tr, workpath := some workpath }

/-- Lines 773-782 of `ovl_fill_super`: `workdir` and `upperdir` must be on the
same mount and be separate subtrees; the depth starts from the upper
filesystem's. -/
def ovl_fill_super_upper_checks (K : Kernel) (st : OvlState) : Step OvlState :=
  match st.config.upperdir with
  | none => .next st
  | some _ =>
    match st.upperpath, st.workpath with
    | some upperpath, some workpath =>
      if upperpath.mnt.id ≠ workpath.mnt.id then
        .ret (-K.consts.EINVAL)
          { st with trace := st.trace ++ [Event.pr_err Msg.not_same_mount] }
      else
        let r := ovl_workdir_ok K st.trace workpath.dentry upperpath.dentry
        if !r.1 then
          .ret (-K.consts.EINVAL)
            { st with trace := r.2 ++ [Event.pr_err Msg.not_separate_subtrees] }
        else
          .next { st with trace := r.2, s_stack_depth := upperpath.mnt.mnt_sb.s_stack_depth }
    | _, _ => .fault

/-- Lines 784-798 of `ovl_fill_super`: copy and split `lowerdir`, check the
number of lower directories. -/
def ovl_fill_super_split (K : Kernel) (st : OvlState) : Step OvlState :=
  match st.config.lowerdir with
  | none =>
    -- `kstrdup(NULL, ...)` is `NULL`
    .ret (-K.consts.ENOMEM) st
  | some lowerdir =>
    if K.kmalloc st.trace then
      match ovl_split_lowerdirs (kstrdup lowerdir) with
      | none => .fault
      | some (stacklen, lowertmp) =>
        let st := { st with trace := st.trace ++ [Event.kstrdup]
                            lowertmp := lowertmp, stacklen := stacklen }
        if stacklen > OVL_MAX_STACK then
          .ret (-K.consts.EINVAL)
            { st with trace := st.trace ++ [Event.pr_err Msg.too_many_lower] }
        else if st.config.upperdir.isNone ∧ stacklen = 1 then
          .ret (-K.consts.EINVAL)
            { st with trace := st.trace ++ [Event.pr_err Msg.need_two_lowerdir] }
        else .next st
    else .ret (-K.consts.ENOMEM) { st with trace := st.trace ++ [Event.kstrdup] }

/-- The loop of super.c:807-814: `n` is `stacklen - numlower`, `lower` the index
of the next name in `lowertmp`. -/
def ovl_fill_super_lowers_loop (K : Kernel) : Nat → Nat → OvlState → Step OvlState
  | 0, _, st => .next st
  | n + 1, lower, st =>
    match ovl_lower_dir K st.trace (cstr_at st.lowertmp lower) st.namelen
        st.s_stack_depth st.remote with
    | (.error err, tr) => .ret err { st with trace := tr }
    | (.ok r, tr) =>
      let st := { st with trace := tr, stack := st.stack ++ [r.path], namelen := r.namelen
                          s_stack_depth := r.stack_depth, remote := r.remote }
      -- `lower = strchr(lower, '\0') + 1;`
      match strchr_nul st.lowertmp lower with
      | none => .fault
      | some e => ovl_fill_super_lowers_loop K n (e + 1) st

/-- Lines 800-814 of `ovl_fill_super`: allocate `stack` and validate every lower
directory. -/
def ovl_fill_super_lowers (K : Kernel) (st : OvlState) : Step OvlState :=
  if K.kmalloc st.trace then
    ovl_fill_super_lowers_loop K st.stacklen 0
      { st with trace := st.trace ++ [Event.kcalloc] }
  else .ret (-K.consts.ENOMEM) { st with trace := st.trace ++ [Event.kcalloc] }

/-- The value an `int` holds after an arithmetic result `x`: the kernel is built
with `-fno-strict-overflow`, so a result outside `-2 ^ 31 .. 2 ^ 31 - 1` wraps
around. -/
def int_wrap (x : Int) : Int :=
  (x + 2 ^ 31) % 2 ^ 32 - 2 ^ 31

/-- Lines 816-821 of `ovl_fill_super`: count this filesystem (`s_stack_depth++`
on an `int`) and compare with the limit. -/
def ovl_fill_super_depth (K : Kernel) (st : OvlState) : Step OvlState :=
  let st := { st with s_stack_depth := int_wrap (st.s_stack_depth + 1) }
  if st.s_stack_depth > K.consts.FILESYSTEM_MAX_STACK_DEPTH then
    .ret (-K.consts.EINVAL)
      { st with trace := st.trace ++ [Event.pr_err Msg.max_depth_exceeded] }
  else .next st

/-- Lines 823-873 of `ovl_fill_super`: clone the upper mount, create the work
directory or fall back to read-only, probe `d_type` and `O_TMPFILE`.  The
pointer `ERR_PTR(err)` that `ovl_workdir_create` returns satisfies `IS_ERR`
exactly when `-MAX_ERRNO ≤ err < 0`. -/
def ovl_fill_super_workdir (K : Kernel) (st : OvlState) : Step OvlState :=
  match st.config.upperdir with
  | none => .next st
  | some _ =>
    match st.upperpath, st.workpath with
    | some upperpath, some workpath =>
      match K.clone_private_mount st.trace upperpath with
      | .error err =>
        .ret err { st with trace := st.trace ++
          [Event.clone_private_mount, Event.pr_err Msg.clone_upperpath_failed] }
      | .ok upper_mnt =>
        let st := { st with trace := st.trace ++ [Event.clone_private_mount]
                            upper_mnt := some upper_mnt }
        match ovl_workdir_create K upper_mnt workpath.dentry st.trace with
        | none => .fault
        | some (.error err, tr) =>
          if -K.consts.MAX_ERRNO ≤ err ∧ err < 0 then
            -- `IS_ERR(ufs->workdir)`: the pointer is `ERR_PTR(err)` with `err` an errno
            .next { st with trace := tr ++ [Event.pr_warn (Msg.workdir_create_failed (-err))]
                            s_flags := st.s_flags ||| K.consts.MS_RDONLY
                            workdir := none }
          else if err = 0 then
            -- `ERR_PTR(0)` is `NULL`: not `IS_ERR`, and no work directory
            .next { st with trace := tr, workdir := none }
          else
            -- `ERR_PTR(err)` is neither `IS_ERR` nor `NULL`: the code keeps it as
            -- `ufs->workdir` and goes on to the probes with a pointer that is no
            -- dentry (`ovl_do_tmpfile`, or `dput` at `out_put_workdir`, uses it)
            .fault
        | some (.ok work, tr) =>
          let st := { st with trace := tr, workdir := some work }
          let err := K.ovl_check_d_type_supported st.trace workpath
          let st := { st with trace := st.trace ++ [Event.ovl_check_d_type_supported] }
          if err < 0 then .ret err st
          else
            let st := if err = 0 then
                { st with trace := st.trace ++ [Event.pr_warn Msg.no_d_type] }
              else st
            match K.ovl_do_tmpfile st.trace work with
            | .ok _ =>
              .next { st with trace := st.trace ++ [Event.ovl_do_tmpfile, Event.dput]
                              tmpfile := true }
            | .error _ =>
              .next { st with trace := st.trace ++
                        [Event.ovl_do_tmpfile, Event.pr_warn Msg.no_tmpfile]
                              tmpfile := false }
    | _, _ => .fault

/-- The loop of super.c:879-895 over the remaining entries of `stack`; `err` is
the local variable of that name. -/
def ovl_fill_super_clone_lowers (K : Kernel) :
    List Path → Int → OvlState → Step (Int × OvlState)
  | [], err, st => .next (err, st)
  | p :: ps, _, st =>
    match K.clone_private_mount st.trace p with
    | .error e =>
      .ret e { st with trace := st.trace ++
        [Event.clone_private_mount, Event.pr_err Msg.clone_lowerpath_failed] }
    | .ok mnt =>
      ovl_fill_super_clone_lowers K ps (ptr_err_int mnt.id)
        { st with trace := st.trace ++ [Event.clone_private_mount]
                  lower_mnt := st.lower_mnt ++ [mnt] }

/-- Lines 875-949 of `ovl_fill_super`: clone the lower mounts, mark a mount
without upper read-only, choose the dentry operations, allocate the root. -/
def ovl_fill_super_finish (K : Kernel) (st : OvlState) : Step OvlState :=
  if K.kmalloc st.trace then
    (ovl_fill_super_clone_lowers K st.stack (-K.consts.ENOMEM)
        { st with trace := st.trace ++ [Event.kcalloc] }).andThen fun r =>
      let err := r.1
      let st := r.2
      let st := if st.upper_mnt.isNone then
          { st with s_flags := st.s_flags ||| K.consts.MS_RDONLY }
        else st
      let st := { st with s_d_op := some (if st.remote then
          DentryOps.ovl_reval_dentry_operations else DentryOps.ovl_dentry_operations) }
      if K.prepare_creds st.trace then
        let st := { st with trace := st.trace ++ [Event.prepare_creds] }
        if K.ovl_alloc_entry st.trace then
          let st := { st with trace := st.trace ++ [Event.ovl_alloc_entry]
                              s_flags := st.s_flags |||
                                (K.consts.MS_POSIXACL ||| K.consts.MS_NOREMOTELOCK) }
          if K.d_make_root st.trace then
            .next { st with trace := st.trace ++ [Event.d_make_root] }
          else .ret (-K.consts.ENOMEM) { st with trace := st.trace ++ [Event.d_make_root] }
        else .ret (-K.consts.ENOMEM) { st with trace := st.trace ++ [Event.ovl_alloc_entry] }
      else .ret err { st with trace := st.trace ++ [Event.prepare_creds] }
  else .ret (-K.consts.ENOMEM) { st with trace := st.trace ++ [Event.kcalloc] }

/-- Lines 728-771 of `ovl_fill_super`: up to the resolution of `upperdir` and
`workdir`. -/
def ovl_fill_super_to_checks (K : Kernel) (s_flags : Nat) (data : List Nat) (silent : Int) :
    Step OvlState :=
  (ovl_fill_super_config K s_flags data silent).andThen (ovl_fill_super_upper_paths K)

/-- Lines 728-783 of `ovl_fill_super`: everything before `lowerdir` is split. -/
def ovl_fill_super_to_split (K : Kernel) (s_flags : Nat) (data : List Nat) (silent : Int) :
    Step OvlState :=
  (ovl_fill_super_to_checks K s_flags data silent).andThen (ovl_fill_super_upper_checks K)

/-- Lines 728-814 of `ovl_fill_super`: everything before the depth check. -/
def ovl_fill_super_to_depth (K : Kernel) (s_flags : Nat) (data : List Nat) (silent : Int) :
    Step OvlState :=
  ((ovl_fill_super_to_split K s_flags data silent).andThen (ovl_fill_super_split K)).andThen
    (ovl_fill_super_lowers K)

/-- Lines 728-821 of `ovl_fill_super`: everything before the upper mount is
cloned. -/
def ovl_fill_super_to_workdir (K : Kernel) (s_flags : Nat) (data : List Nat) (silent : Int) :
    Step OvlState :=
  (ovl_fill_super_to_depth K s_flags data silent).andThen (ovl_fill_super_depth K)

/-- The function `ovl_fill_super` (super.c:710-979) for the mount data `data`,
the value `s_flags` of `sb->s_flags` on entry and the argument `silent`.  The
cleanup labels only release what was acquired and are left out, as are the
fields of `sb` and `ufs` that the function only writes (`s_maxbytes`,
`s_time_gran`, `s_magic`, `s_op`, `s_xattr`, `s_fs_info`, `s_root`, the mount
flags of the clones, the credentials). -/
def ovl_fill_super (K : Kernel) (s_flags : Nat) (data : List Nat) (silent : Int) :
    Step OvlState :=
  ((ovl_fill_super_to_workdir K s_flags data silent).andThen
    (ovl_fill_super_workdir K)).andThen (ovl_fill_super_finish K)

/-! ## Notions used to state the properties -/

/-- The hook calls a revalidation loop makes when it runs through all of `ds`,
the first of which has index `i`: one call `ev j` for every entry `j` for which
`has` holds, in stack order. -/
def hook_calls (has : LowerDentry → Bool) (ev : Nat → RevalEvent) :
    List LowerDentry → Nat → List RevalEvent
  | [], _ => []
  | d :: ds, i => (if has d then [ev i] else []) ++ hook_calls has ev ds (i + 1)

/-- The test `d->d_flags & DCACHE_OP_REVALIDATE` of super.c:102. -/
def has_revalidate (K : KConst) (d : LowerDentry) : Bool :=
  d.d_flags &&& K.DCACHE_OP_REVALIDATE != 0

/-- The test `d->d_flags & DCACHE_OP_WEAK_REVALIDATE` of super.c:125. -/
def has_weak_revalidate (K : KConst) (d : LowerDentry) : Bool :=
  d.d_flags &&& K.DCACHE_OP_WEAK_REVALIDATE != 0

/-! ## Concrete inputs -/

/-- A stack of four lower dentries for the concrete runs: the first has a
`d_revalidate` hook that returns 1, the second has no hook, the third has a hook
that returns 0; the fourth has a hook that returns an error. -/
def reval_stack : List LowerDentry :=
  [ ⟨4, fun _ => 1, fun _ => 1⟩, ⟨0, fun _ => -5, fun _ => -5⟩,
    ⟨4, fun _ => 0, fun _ => 0⟩, ⟨4, fun _ => -5, fun _ => -5⟩ ]

/-- A stack of three lower dentries with weak hooks that return 3, -7 and 0. -/
def weak_stack : List LowerDentry :=
  [ ⟨2048, fun _ => 1, fun _ => 3⟩, ⟨2052, fun _ => 1, fun _ => -7⟩,
    ⟨2048, fun _ => 1, fun _ => 0⟩ ]

/-- A directory on a local filesystem, with address `id`. -/
def local_dir (id : Nat) : Dentry := ⟨id, some id, false, false, true⟩

/-- The writable mount that holds `/u`, `/u/work-parent` and `/w`. -/
def mnt_upper : Mount := ⟨1, ⟨0, 0⟩⟩

/-- A mount of a plain filesystem (depth 0), holding `/b`, `/c` and `/a:b`. -/
def mnt_plain : Mount := ⟨2, ⟨0, 0⟩⟩

/-- A mount of a stacked filesystem of depth 1, holding `/a`. -/
def mnt_stacked : Mount := ⟨3, ⟨0, 1⟩⟩

/-- A mount of a stacked filesystem of depth 2, holding `/d`. -/
def mnt_deep : Mount := ⟨4, ⟨0, 2⟩⟩

/-- A mount of a network filesystem, holding `/n`. -/
def mnt_net : Mount := ⟨5, ⟨0, 0⟩⟩

/-- The directory tree of the concrete runs: what `kern_path` answers for
`/u` (10), `/u/work-parent` (11), `/w` (12), `/a` (20), `/b` (21), `/c` (22),
`/a:b` (23), `/d` (24) and the remote `/n` (25); `-ENOENT` for any other name. -/
def test_kern_path (name : List Nat) : Except Int Path :=
  if name = [47, 117] then .ok ⟨mnt_upper, local_dir 10⟩
  else if name = [47, 117, 47, 119, 111, 114, 107, 45, 112, 97, 114, 101, 110, 116] then
    .ok ⟨mnt_upper, local_dir 11⟩
  else if name = [47, 119] then .ok ⟨mnt_upper, local_dir 12⟩
  else if name = [47, 97] then .ok ⟨mnt_stacked, local_dir 20⟩
  else if name = [47, 98] then .ok ⟨mnt_plain, local_dir 21⟩
  else if name = [47, 99] then .ok ⟨mnt_plain, local_dir 22⟩
  else if name = [47, 97, 58, 98] then .ok ⟨mnt_plain, local_dir 23⟩
  else if name = [47, 100] then .ok ⟨mnt_deep, local_dir 24⟩
  else if name = [47, 110] then .ok ⟨mnt_net, ⟨25, some 25, false, true, true⟩⟩
  else .error (-2)

/-- The ancestor relation of that tree between the directories used as upper
and work directory: `/u` (10) is an ancestor of `/u/work-parent` (11). -/
def test_ancestor (a b : Dentry) : Prop := a.id = 10 ∧ b.id = 11

/-- A kernel for the concrete runs, for the options that parse to `cfg`: every
allocation succeeds, names resolve as in `test_kern_path`, `lock_rename` finds
`/u` above `/u/work-parent`, and the upper directory holds a stale `work` entry
that `ovl_workdir_cleanup` removes. -/
def test_kernel (cfg : Config) : Kernel where
  consts := linux_consts
  kmalloc := fun _ => true
  ovl_parse_opt := fun _ _ => (0, cfg)
  kern_path := fun _ name => test_kern_path name
  vfs_statfs := fun _ _ => .ok 255
  lock_rename := fun _ w u =>
    if w.id = 10 ∧ u.id = 11 then some w else if u.id = 10 ∧ w.id = 11 then some u else none
  clone_private_mount := fun _ p => .ok ⟨p.mnt.id + 100, p.mnt.mnt_sb⟩
  mnt_want_write := fun _ _ => 0
  lookup_one_len := fun tr _ =>
    .ok ⟨13, if Event.ovl_workdir_cleanup ∈ tr then none else some 13, false, false, true⟩
  ovl_create_real := fun _ _ => 0
  vfs_removexattr := fun _ _ _ => -61
  notify_change := fun _ _ => 0
  ovl_check_d_type_supported := fun _ _ => 1
  ovl_do_tmpfile := fun _ d => .ok d
  prepare_creds := fun _ => true
  ovl_alloc_entry := fun _ => true
  d_make_root := fun _ => true

/-- The same kernel on an upper directory whose `work` entry survives the
cleanup. -/
def test_kernel_stuck (cfg : Config) : Kernel :=
  { test_kernel cfg with
    lookup_one_len := fun _ _ => .ok ⟨13, some 13, false, false, true⟩ }

/-- Options `lowerdir=/a`. -/
def cfg_single : Config := ⟨some [47, 97], none, none, false, false⟩

/-- Options `lowerdir=/a:/b` (scenario A). -/
def cfg_two : Config := ⟨some [47, 97, 58, 47, 98], none, none, false, false⟩

/-- Options `lowerdir=/d:/b`, whose first layer has depth 2. -/
def cfg_deep : Config := ⟨some [47, 100, 58, 47, 98], none, none, false, false⟩

/-- Options `lowerdir=/a,upperdir=/u,workdir=/u/work-parent` (scenario B). -/
def cfg_nested : Config :=
  ⟨some [47, 97], some [47, 117],
    some [47, 117, 47, 119, 111, 114, 107, 45, 112, 97, 114, 101, 110, 116], false, false⟩

/-- Options `lowerdir=/a,upperdir=/u,workdir=/w`. -/
def cfg_upper : Config := ⟨some [47, 97], some [47, 117], some [47, 119], false, false⟩

/-- Options `lowerdir=/b:/n`, whose second layer is remote. -/
def cfg_remote : Config := ⟨some [47, 98, 58, 47, 110], none, none, false, false⟩

/-! ## Reference functions for the escaping -/

/-- The reference unescaping of the bytes `s` of a string (without its
terminator): a backslash is removed and the byte after it is kept as it is; a
backslash that is the last byte is dropped. -/
def unescape_ref : List Nat → List Nat
  | [] => []
  | c :: rest =>
    if c = 92 then
      match rest with
      | [] => []
      | c1 :: rest1 => c1 :: unescape_ref rest1
    else c :: unescape_ref rest

/-- What the loop of `ovl_unescape` writes while it consumes the bytes `rest` up
to their terminator; `none` when `rest` has no terminator. -/
def unescape_out : List Nat → Option (List Nat)
  | [] => none
  | c :: rest =>
    if c = 92 then
      match rest with
      | [] => none
      | c1 :: rest1 =>
        if c1 = 0 then some [0]
        else (unescape_out rest1).map (fun o => c1 :: o)
    else if c = 0 then some [0]
    else (unescape_out rest).map (fun o => c :: o)

/-! ## Memory accesses of `ovl_split_lowerdirs` -/

/-- A memory access of `ovl_split_lowerdirs`: a read of `str[i]`, or a write
of `str[d]` made while the read position is `s`. -/
inductive Access where
  | read (i : Nat)
  | write (d s : Nat)
  deriving DecidableEq, Repr

/-- An access stays inside a string of length `n` (indexes `0 .. n`, the last
being the terminator), and a write is not ahead of the read position. -/
def Access.in_bounds (n : Nat) : Access → Prop
  | .read i => i ≤ n
  | .write d s => d ≤ s ∧ s ≤ n

/-- The loop of `ovl_split_lowerdirs` (super.c:561-572) as in
`ovl_split_lowerdirs_loop`, which also records every access to the buffer in
`log`. -/
def ovl_split_lowerdirs_accesses_loop :
    Nat → List Nat → Nat → Nat → Nat → List Access → Option (Nat × List Nat × List Access)
  | 0, _, _, _, _, _ => none
  | fuel + 1, buf, s, d, ctr, log =>
    match buf[s]? with
    | none => none
    | some c =>
      let log := log ++ [Access.read s]
      if c = 92 then
        -- `s++`, then `*d = *s; if (!*s) break;`
        match buf[s + 1]? with
        | none => none
        | some c1 =>
          let buf1 := buf.set d c1
          match buf1[s + 1]? with
          | none => none
          | some c2 =>
            let log := log ++ [Access.read (s + 1), Access.write d (s + 1), Access.read (s + 1)]
            if c2 = 0 then some (ctr, buf1, log)
            else ovl_split_lowerdirs_accesses_loop fuel buf1 (s + 2) (d + 1) ctr log
      else if c = 58 then
        -- `*d = '\0'; ctr++; continue;`
        ovl_split_lowerdirs_accesses_loop fuel (buf.set d 0) (s + 1) (d + 1)
          ((ctr + 1) % 2 ^ 32) (log ++ [Access.write d s])
      else
        -- `*d = *s; if (!*s) break;`
        let buf1 := buf.set d c
        match buf1[s]? with
        | none => none
        | some c2 =>
          let log := log ++ [Access.write d s, Access.read s]
          if c2 = 0 then some (ctr, buf1, log)
          else ovl_split_lowerdirs_accesses_loop fuel buf1 (s + 1) (d + 1) ctr log

/-- The function `ovl_split_lowerdirs` (super.c:556-574) with the list of its
accesses to `str`. -/
def ovl_split_lowerdirs_accesses (str : List Nat) : Option (Nat × List Nat × List Access) :=
  ovl_split_lowerdirs_accesses_loop str.length str 0 0 1 []

/-- The number of colons of `s` that are not escaped by a backslash. -/
def unescaped_colons : List Nat → Nat
  | [] => 0
  | c :: rest =>
    if c = 92 then
      match rest with
      | [] => 0
      | _ :: rest1 => unescaped_colons rest1
    else if c = 58 then unescaped_colons rest + 1
    else unescaped_colons rest

/-- The list `ps` with the byte `c` put in front of its first element. -/
def push_front (c : Nat) : List (List Nat) → List (List Nat)
  | [] => [[c]]
  | p :: ps => (c :: p) :: ps

/-- The segments of the string `s`: the pieces between unescaped colons, each
unescaped. -/
def split_segments : List Nat → List (List Nat)
  | [] => [[]]
  | c :: rest =>
    if c = 92 then
      match rest with
      | [] => [[]]
      | c1 :: rest1 => push_front c1 (split_segments rest1)
    else if c = 58 then [] :: split_segments rest
    else push_front c (split_segments rest)

/-- What makes a list of segments and a count the result of a split of a string
of length `n`. -/
structure SplitOk (n : Nat) (segs : List (List Nat)) (colons : Nat) : Prop where
  nonempty : segs ≠ []
  count : segs.length = colons + 1
  no_nul : ∀ p ∈ segs, 0 ∉ p
  stored : (stored_names segs).length ≤ n + 1
  colons_le : colons ≤ n

/-- The values of `lower` in the loop of `ovl_fill_super` (super.c:806-814) over
`n` names, starting at `i`: each name starts where the previous one's terminator
ends; `none` when `strchr` finds no terminator. -/
def lower_starts (buf : List Nat) : Nat → Nat → Option (List Nat)
  | 0, _ => some []
  | n + 1, i =>
    match strchr_nul buf i with
    | none => none
    | some e => (lower_starts buf n (e + 1)).map (fun r => i :: r)

/-- The loop of `ovl_unescape` (super.c:444-450) as in `ovl_unescape_loop`, which
also records every access to the buffer in `log`. -/
def ovl_unescape_accesses_loop :
    Nat → List Nat → Nat → Nat → List Access → Option (List Nat × List Access)
  | 0, _, _, _, _ => none
  | fuel + 1, buf, s, d, log =>
    match buf[s]? with
    | none => none
    | some c =>
      -- `if (*s == '\\') s++;`
      let s1 := if c = 92 then s + 1 else s
      match buf[s1]? with
      | none => none
      | some c1 =>
        let buf1 := buf.set d c1
        match buf1[s1]? with
        | none => none
        | some c2 =>
          let log := log ++ [Access.read s, Access.read s1, Access.write d s1, Access.read s1]
          if c2 = 0 then some (buf1, log)
          else ovl_unescape_accesses_loop fuel buf1 (s1 + 1) (d + 1) log

/-- The function `ovl_unescape` (super.c:440-451) with the list of its accesses
to `s`. -/
def ovl_unescape_accesses (s : List Nat) : Option (List Nat × List Access) :=
  ovl_unescape_accesses_loop s.length s 0 0 []

/-! ## Statistics -/

/-- The fields of `struct kstatfs` that `ovl_statfs` sets after `vfs_statfs`
has filled the structure. -/
structure Kstatfs where
  f_namelen : Int
  f_type : Nat
  deriving DecidableEq, Repr

/-- The function `ovl_statfs` (super.c:191-207) for a file system whose
`ofs->namelen` is `namelen`; `path` is the real path of the root that
`ovl_path_real` returns, and `OVERLAYFS_SUPER_MAGIC` the constant of that name
from the kernel headers. -/
def ovl_statfs (K : Kernel) (OVERLAYFS_SUPER_MAGIC : Nat) (tr : List Event) (namelen : Int)
    (path : Path) : Except Int Kstatfs × List Event :=
  match K.vfs_statfs tr path with
  | .error err => (.error err, tr ++ [Event.vfs_statfs])
  | .ok _ =>
    (.ok { f_namelen := namelen, f_type := OVERLAYFS_SUPER_MAGIC }, tr ++ [Event.vfs_statfs])

/-- The filename-length limits of the concrete runs: 143 on `/b` (21), 255 on
`/a` (20), 127 elsewhere. -/
def test_namelen (p : Path) : Int :=
  if p.dentry.id = 21 then 143 else if p.dentry.id = 20 then 255 else 127

/-- The kernel of the concrete runs with those filename-length limits. -/
def test_kernel_namelen (cfg : Config) : Kernel :=
  { test_kernel cfg with vfs_statfs := fun _ p => .ok (test_namelen p) }

/-- Options `lowerdir=/b:/a,upperdir=/u,workdir=/w`. -/
def cfg_three : Config :=
  ⟨some [47, 98, 58, 47, 97], some [47, 117], some [47, 119], false, false⟩

/-! ## Inputs at the edges of the C types -/

/-- The kernel of the concrete runs in which every name resolves to a directory
of a filesystem whose `s_stack_depth` is `INT_MAX`. -/
def test_kernel_int_max (cfg : Config) : Kernel :=
  { test_kernel cfg with
    kern_path := fun _ _ => .ok ⟨⟨6, ⟨0, 2147483647⟩⟩, local_dir 20⟩ }

/-- The kernel of the concrete runs in which `ovl_create_real` returns -4096, one
below the errnos that an error pointer can carry. -/
def test_kernel_bad_errno (cfg : Config) : Kernel :=
  { test_kernel cfg with ovl_create_real := fun _ _ => -4096 }

/-! # Theorems -/

theorem split_ref_cons (c : Nat) (rest : List Nat) :
    split_ref (c :: rest) =
      if c = 92 then
        match rest with
        | [] => none
        | c1 :: rest1 =>
          if c1 = 0 then some ([0], 0)
          else (split_ref rest1).map (fun r => (c1 :: r.1, r.2))
      else if c = 58 then (split_ref rest).map (fun r => (0 :: r.1, r.2 + 1))
      else if c = 0 then some ([0], 0)
      else (split_ref rest).map (fun r => (c :: r.1, r.2)) := by
  cases rest <;> simp [split_ref]

theorem read_out_gap (out gap rest : List Nat) (k : Nat) :
    (out ++ gap ++ rest)[out.length + gap.length + k]? = rest[k]? := by
  rw [List.getElem?_append_right (by simp)]
  simp

theorem set_out (out X : List Nat) (c : Nat) :
    (out ++ X).set out.length c = out ++ X.set 0 c := by
  induction out with
  | nil => simp
  | cons a out ih => simp [ih]

theorem set_gap (out gap cons rest : List Nat) (c : Nat) (hne : cons ≠ []) :
    (out ++ gap ++ (cons ++ rest)).set out.length c
      = (out ++ [c]) ++ (gap ++ cons).tail ++ rest := by
  rw [List.append_assoc, set_out]
  cases gap with
  | nil =>
    cases cons with
    | nil => exact absurd rfl hne
    | cons a t => simp
  | cons g gap => simp

theorem length_gap_tail (gap cons : List Nat) (hne : cons ≠ []) :
    (gap ++ cons).tail.length + 1 = gap.length + cons.length := by
  cases gap with
  | nil =>
    cases cons with
    | nil => exact absurd rfl hne
    | cons a t => simp
  | cons g gap => simp only [List.cons_append, List.tail_cons, List.length_append, List.length_cons]; omega

theorem read_at_length (X rest : List Nat) (c : Nat) (i : Nat) (hi : i = X.length) :
    (X ++ c :: rest)[i]? = some c := by
  subst hi
  rw [List.getElem?_append_right (Nat.le_refl _)]
  simp

theorem read_gap_last (out Y rest : List Nat) (c : Nat) :
    ((out ++ [c]) ++ (Y ++ [c]).tail ++ rest)[out.length + Y.length]? = some c := by
  cases Y with
  | nil =>
    have : (out ++ [c]) ++ ([] ++ [c]).tail ++ rest = out ++ c :: rest := by simp
    rw [this]
    exact read_at_length out rest c _ (by simp)
  | cons t T =>
    have : (out ++ [c]) ++ (t :: T ++ [c]).tail ++ rest = (out ++ c :: T) ++ c :: rest := by simp
    rw [this]
    exact read_at_length _ rest c _ (by simp)

theorem split_loop_eq (fuel : Nat) : ∀ (out gap rest : List Nat) (ctr : Nat),
    rest.length ≤ fuel → ctr < 2 ^ 32 →
    ovl_split_lowerdirs_loop fuel (out ++ gap ++ rest) (out.length + gap.length) out.length ctr
      = (split_ref rest).map
          (fun r => ((ctr + r.2) % 2 ^ 32, out ++ r.1 ++ (gap ++ rest).drop r.1.length)) := by
  induction fuel with
  | zero =>
    intro out gap rest ctr h _
    have : rest = [] := List.length_eq_zero.mp (Nat.le_zero.mp h)
    subst this
    simp [ovl_split_lowerdirs_loop, split_ref]
  | succ fuel ih =>
    intro out gap rest ctr h hc
    have hc' : ctr % 4294967296 = ctr := Nat.mod_eq_of_lt (by simpa using hc)
    have h0 := read_out_gap out gap rest 0
    simp only [Nat.add_zero] at h0
    have h1 := read_out_gap out gap rest 1
    rw [ovl_split_lowerdirs_loop, h0]
    cases rest with
    | nil => simp [split_ref, split_ref_cons]
    | cons c rest =>
      simp only [List.getElem?_cons_zero]
      by_cases hc92 : c = 92
      · subst hc92
        simp only [if_true]
        rw [h1]
        cases rest with
        | nil => simp [split_ref, split_ref_cons]
        | cons c1 rest1 =>
          simp only [List.getElem?_cons_succ, List.getElem?_cons_zero]
          have key : (out ++ gap ++ 92 :: c1 :: rest1).set out.length c1
              = (out ++ [c1]) ++ (gap ++ [92, c1]).tail ++ rest1 :=
            set_gap out gap [92, c1] rest1 c1 (by simp)
          have hG : (gap ++ [92, c1]).tail.length + 1 = gap.length + 2 :=
            length_gap_tail gap [92, c1] (by simp)
          have hget : ((out ++ [c1]) ++ (gap ++ [92, c1]).tail ++ rest1)[out.length + gap.length + 1]?
              = some c1 := by
            have := read_gap_last out (gap ++ [92]) rest1 c1
            simpa [Nat.add_assoc] using this
          rw [key, hget]
          simp only []
          have hdrop : ∀ n, List.drop (n + 1) (gap ++ 92 :: c1 :: rest1)
              = List.drop n ((gap ++ [92, c1]).tail ++ rest1) := by
            intro n; cases gap <;> simp
          by_cases hz : c1 = 0
          · subst hz
            simp [split_ref_cons, hdrop, hc']
          · have e : out.length + gap.length + 2
                = (out ++ [c1]).length + (gap ++ [92, c1]).tail.length := by
              simp only [List.length_append, List.length_cons, List.length_nil]; omega
            have e1 : out.length + 1 = (out ++ [c1]).length := by simp
            have hl : rest1.length ≤ fuel := by simp at h; omega
            rw [if_neg hz, e, e1, ih (out ++ [c1]) _ rest1 ctr hl hc]
            simp only [split_ref_cons, if_true, if_neg hz, Option.map_map]
            congr 1
            funext r
            simp [hdrop]
      · rw [if_neg hc92]
        by_cases hc58 : c = 58
        · subst hc58
          simp only [if_true]
          have key : (out ++ gap ++ 58 :: rest).set out.length 0
              = (out ++ [0]) ++ (gap ++ [58]).tail ++ rest :=
            set_gap out gap [58] rest 0 (by simp)
          have hG : (gap ++ [58]).tail.length + 1 = gap.length + 1 :=
            length_gap_tail gap [58] (by simp)
          have hdrop : ∀ n, List.drop (n + 1) (gap ++ 58 :: rest)
              = List.drop n ((gap ++ [58]).tail ++ rest) := by
            intro n; cases gap <;> simp
          have e : out.length + gap.length + 1
              = (out ++ [0]).length + (gap ++ [58]).tail.length := by
            simp only [List.length_append, List.length_cons, List.length_nil]; omega
          have e1 : out.length + 1 = (out ++ [0]).length := by simp
          have hl : rest.length ≤ fuel := by simp at h; omega
          have hc1 : (ctr + 1) % 2 ^ 32 < 2 ^ 32 := Nat.mod_lt _ (by norm_num)
          rw [key, e, e1, ih (out ++ [0]) _ rest _ hl hc1]
          simp only [split_ref_cons, if_true, if_neg hc92, Option.map_map]
          congr 1
          funext r
          simp [hdrop]
          omega
        · rw [if_neg hc58]
          have key : (out ++ gap ++ c :: rest).set out.length c
              = (out ++ [c]) ++ (gap ++ [c]).tail ++ rest :=
            set_gap out gap [c] rest c (by simp)
          have hG : (gap ++ [c]).tail.length + 1 = gap.length + 1 :=
            length_gap_tail gap [c] (by simp)
          have hget : ((out ++ [c]) ++ (gap ++ [c]).tail ++ rest)[out.length + gap.length]?
              = some c := read_gap_last out gap rest c
          have hdrop : ∀ n, List.drop (n + 1) (gap ++ c :: rest)
              = List.drop n ((gap ++ [c]).tail ++ rest) := by
            intro n; cases gap <;> simp
          rw [key, hget]
          simp only []
          by_cases hz : c = 0
          · subst hz
            simp [split_ref_cons, hdrop, hc']
          · have e : out.length + gap.length + 1
                = (out ++ [c]).length + (gap ++ [c]).tail.length := by
              simp only [List.length_append, List.length_cons, List.length_nil]; omega
            have e1 : out.length + 1 = (out ++ [c]).length := by simp
            have hl : rest.length ≤ fuel := by simp at h; omega
            rw [if_neg hz, e, e1, ih (out ++ [c]) _ rest ctr hl hc]
            simp only [split_ref_cons, if_neg hc92, if_neg hc58, if_neg hz, Option.map_map]
            congr 1
            funext r
            simp [hdrop]

theorem split_ref_escape (p rest : List Nat) (hp : 0 ∉ p) :
    split_ref (escape_path p ++ rest) = (split_ref rest).map (fun r => (p ++ r.1, r.2)) := by
  induction p with
  | nil => simp [escape_path]
  | cons c p ih =>
    have hc : c ≠ 0 := fun h => hp (by simp [h])
    have hp' : 0 ∉ p := fun h => hp (by simp [h])
    have ih' := ih hp'
    simp only [escape_path, List.flatMap_cons] at ih' ⊢
    by_cases h : c = 92 ∨ c = 58
    · rw [if_pos h]
      simp only [List.cons_append, List.nil_append, List.append_assoc]
      rw [split_ref_cons, if_pos rfl]
      simp only [if_neg hc]
      rw [ih']
      simp [Option.map_map, Function.comp_def]
    · rw [if_neg h]
      have h1 : c ≠ 92 := fun e => h (Or.inl e)
      have h2 : c ≠ 58 := fun e => h (Or.inr e)
      simp only [List.cons_append, List.nil_append, List.append_assoc]
      rw [split_ref_cons, if_neg h1, if_neg h2, if_neg hc, ih']
      simp [Option.map_map, Function.comp_def]

theorem split_ref_join (ps : List (List Nat)) (hne : ps ≠ []) (hnul : ∀ p ∈ ps, 0 ∉ p) :
    split_ref (join_lowerdirs ps ++ [0]) = some (stored_names ps, ps.length - 1) := by
  induction ps with
  | nil => exact absurd rfl hne
  | cons p ps ih =>
    have hp : 0 ∉ p := hnul p (by simp)
    cases ps with
    | nil =>
      rw [join_lowerdirs, split_ref_escape p [0] hp]
      simp [split_ref_cons, stored_names]
    | cons q ps =>
      have ih' := ih (by simp) (fun x hx => hnul x (by simp [hx]))
      rw [join_lowerdirs, List.append_assoc, split_ref_escape _ _ hp]
      simp only [List.cons_append]
      rw [split_ref_cons, if_neg (by decide), if_pos rfl, ih']
      simp [stored_names]

theorem cstr_at_stored (pre p rest : List Nat) (hp : 0 ∉ p) :
    cstr_at (pre ++ (p ++ 0 :: rest)) pre.length = p := by
  unfold cstr_at
  rw [List.drop_left]
  induction p with
  | nil => simp [List.takeWhile]
  | cons c p ih =>
    have hc : c ≠ 0 := fun h => hp (by simp [h])
    have hp' : 0 ∉ p := fun h => hp (by simp [h])
    have hb : (c != 0) = true := by simp [hc]
    simp [List.takeWhile, hb, ih hp']

theorem lower_names_stored (ps : List (List Nat)) (hnul : ∀ p ∈ ps, 0 ∉ p) :
    ∀ (pre junk : List Nat),
      lower_names (pre ++ (stored_names ps ++ junk)) ps.length pre.length = ps := by
  induction ps with
  | nil => intro pre junk; simp [lower_names]
  | cons p ps ih =>
    intro pre junk
    have hp : 0 ∉ p := hnul p (by simp)
    have hc : cstr_at (pre ++ (stored_names (p :: ps) ++ junk)) pre.length = p := by
      have := cstr_at_stored pre p (stored_names ps ++ junk) hp
      simpa [stored_names] using this
    simp only [List.length_cons, lower_names, hc]
    congr 1
    have := ih (fun x hx => hnul x (by simp [hx])) (pre ++ p ++ [0]) junk
    simpa [stored_names, Nat.add_assoc] using this

/-- C1. Round trip of the `lowerdir=` option: for a non-empty list `ps` of paths
without NUL bytes (fewer than `2 ^ 32` of them, the count being an
`unsigned int`), `ovl_split_lowerdirs` on the escaped paths joined with colons
returns the number of paths and leaves the paths, each with its terminator,
back to back at the start of the buffer; the walk of `ovl_fill_super` over that
buffer reads back exactly `ps`, in order. -/
theorem ovl_split_lowerdirs_roundtrip (ps : List (List Nat)) (hne : ps ≠ [])
    (hnul : ∀ p ∈ ps, 0 ∉ p) (hlen : ps.length < 2 ^ 32) :
    ovl_split_lowerdirs (join_lowerdirs ps ++ [0])
        = some (ps.length,
            stored_names ps ++ (join_lowerdirs ps ++ [0]).drop (stored_names ps).length)
      ∧ lower_names
          (stored_names ps ++ (join_lowerdirs ps ++ [0]).drop (stored_names ps).length)
          ps.length 0 = ps := by
  constructor
  · have h := split_loop_eq (join_lowerdirs ps ++ [0]).length [] [] (join_lowerdirs ps ++ [0]) 1
      (Nat.le_refl _) (by norm_num)
    have hpos : 0 < ps.length := List.length_pos.mpr hne
    have e : (1 + (ps.length - 1)) % 2 ^ 32 = ps.length := by
      rw [show 1 + (ps.length - 1) = ps.length by omega]
      exact Nat.mod_eq_of_lt hlen
    simp only [List.nil_append, List.length_nil, Nat.add_zero] at h
    rw [ovl_split_lowerdirs, h, split_ref_join ps hne hnul]
    simp only [Option.map_some', e]
  · have := lower_names_stored ps hnul [] ((join_lowerdirs ps ++ [0]).drop (stored_names ps).length)
    simpa using this

/-- Witness of C1: the 8-character string `/a\:b:/c` is the escaped form of the
paths `/a:b` and `/c`; splitting it returns 2 and stores `/a:b` and `/c`. -/
theorem ovl_split_lowerdirs_roundtrip_witness :
    join_lowerdirs [[47, 97, 58, 98], [47, 99]] = [47, 97, 92, 58, 98, 58, 47, 99]
      ∧ ovl_split_lowerdirs ([47, 97, 92, 58, 98, 58, 47, 99] ++ [0])
          = some (2, [47, 97, 58, 98, 0, 47, 99, 0, 0])
      ∧ lower_names [47, 97, 58, 98, 0, 47, 99, 0, 0] 2 0 = [[47, 97, 58, 98], [47, 99]] :=
  ⟨by decide,
   (ovl_split_lowerdirs_roundtrip [[47, 97, 58, 98], [47, 99]] (by decide) (by decide)
      (by norm_num)).1,
   (ovl_split_lowerdirs_roundtrip [[47, 97, 58, 98], [47, 99]] (by decide) (by decide)
      (by norm_num)).2⟩

/-! ## `ovl_unescape` -/

theorem unescape_out_cons (c : Nat) (rest : List Nat) :
    unescape_out (c :: rest) =
      if c = 92 then
        match rest with
        | [] => none
        | c1 :: rest1 =>
          if c1 = 0 then some [0]
          else (unescape_out rest1).map (fun o => c1 :: o)
      else if c = 0 then some [0]
      else (unescape_out rest).map (fun o => c :: o) := by
  cases rest <;> simp [unescape_out]

theorem unescape_ref_cons (c : Nat) (rest : List Nat) :
    unescape_ref (c :: rest) =
      if c = 92 then
        match rest with
        | [] => []
        | c1 :: rest1 => c1 :: unescape_ref rest1
      else c :: unescape_ref rest := by
  cases rest <;> simp [unescape_ref]

theorem unescape_loop_eq (fuel : Nat) : ∀ (out gap rest : List Nat),
    rest.length ≤ fuel →
    ovl_unescape_loop fuel (out ++ gap ++ rest) (out.length + gap.length) out.length
      = (unescape_out rest).map (fun o => out ++ o ++ (gap ++ rest).drop o.length) := by
  induction fuel with
  | zero =>
    intro out gap rest h
    have : rest = [] := List.length_eq_zero.mp (Nat.le_zero.mp h)
    subst this
    simp [ovl_unescape_loop, unescape_out]
  | succ fuel ih =>
    intro out gap rest h
    have h0 := read_out_gap out gap rest 0
    simp only [Nat.add_zero] at h0
    have h1 := read_out_gap out gap rest 1
    rw [ovl_unescape_loop, h0]
    cases rest with
    | nil => simp [unescape_out]
    | cons c rest =>
      simp only [List.getElem?_cons_zero]
      by_cases hc92 : c = 92
      · subst hc92
        simp only [if_true]
        rw [h1]
        cases rest with
        | nil => simp [unescape_out_cons]
        | cons c1 rest1 =>
          simp only [List.getElem?_cons_succ, List.getElem?_cons_zero]
          have key : (out ++ gap ++ 92 :: c1 :: rest1).set out.length c1
              = (out ++ [c1]) ++ (gap ++ [92, c1]).tail ++ rest1 :=
            set_gap out gap [92, c1] rest1 c1 (by simp)
          have hG : (gap ++ [92, c1]).tail.length + 1 = gap.length + 2 :=
            length_gap_tail gap [92, c1] (by simp)
          have hget : ((out ++ [c1]) ++ (gap ++ [92, c1]).tail ++ rest1)[out.length + gap.length + 1]?
              = some c1 := by
            have := read_gap_last out (gap ++ [92]) rest1 c1
            simpa [Nat.add_assoc] using this
          rw [key, hget]
          simp only []
          have hdrop : ∀ n, List.drop (n + 1) (gap ++ 92 :: c1 :: rest1)
              = List.drop n ((gap ++ [92, c1]).tail ++ rest1) := by
            intro n; cases gap <;> simp
          by_cases hz : c1 = 0
          · subst hz
            simp [unescape_out_cons, hdrop]
          · have e : out.length + gap.length + 1 + 1
                = (out ++ [c1]).length + (gap ++ [92, c1]).tail.length := by
              simp only [List.length_append, List.length_cons, List.length_nil]; omega
            have e1 : out.length + 1 = (out ++ [c1]).length := by simp
            have hl : rest1.length ≤ fuel := by simp at h; omega
            rw [if_neg hz, e, e1, ih (out ++ [c1]) _ rest1 hl]
            simp only [unescape_out_cons, if_true, if_neg hz, Option.map_map]
            congr 1
            funext r
            simp [hdrop]
      · rw [if_neg hc92]
        simp only [h0, List.getElem?_cons_zero]
        have key : (out ++ gap ++ c :: rest).set out.length c
            = (out ++ [c]) ++ (gap ++ [c]).tail ++ rest :=
          set_gap out gap [c] rest c (by simp)
        have hG : (gap ++ [c]).tail.length + 1 = gap.length + 1 :=
          length_gap_tail gap [c] (by simp)
        have hget : ((out ++ [c]) ++ (gap ++ [c]).tail ++ rest)[out.length + gap.length]?
            = some c := read_gap_last out gap rest c
        have hdrop : ∀ n, List.drop (n + 1) (gap ++ c :: rest)
            = List.drop n ((gap ++ [c]).tail ++ rest) := by
          intro n; cases gap <;> simp
        rw [key, hget]
        simp only []
        by_cases hz : c = 0
        · subst hz
          simp [unescape_out_cons, hdrop]
        · have e : out.length + gap.length + 1
              = (out ++ [c]).length + (gap ++ [c]).tail.length := by
            simp only [List.length_append, List.length_cons, List.length_nil]; omega
          have e1 : out.length + 1 = (out ++ [c]).length := by simp
          have hl : rest.length ≤ fuel := by simp at h; omega
          rw [if_neg hz, e, e1, ih (out ++ [c]) _ rest hl]
          simp only [unescape_out_cons, if_neg hc92, if_neg hz, Option.map_map]
          congr 1
          funext r
          simp [hdrop]

theorem unescape_out_terminated (n : Nat) : ∀ (s : List Nat), s.length ≤ n → 0 ∉ s →
    unescape_out (s ++ [0]) = some (unescape_ref s ++ [0]) := by
  induction n with
  | zero =>
    intro s h _
    have : s = [] := List.length_eq_zero.mp (Nat.le_zero.mp h)
    subst this
    simp [unescape_out_cons, unescape_ref]
  | succ n ih =>
    intro s h hs
    cases s with
    | nil => simp [unescape_out_cons, unescape_ref]
    | cons c rest =>
      have hc : c ≠ 0 := fun e => hs (by simp [e])
      have hrest : 0 ∉ rest := fun e => hs (by simp [e])
      have hl : rest.length ≤ n := by simp at h; omega
      rw [List.cons_append, unescape_out_cons, unescape_ref_cons]
      by_cases hc92 : c = 92
      · simp only [hc92, if_true]
        cases rest with
        | nil => simp
        | cons c1 rest1 =>
          have hc1 : c1 ≠ 0 := fun e => hrest (by simp [e])
          have hrest1 : 0 ∉ rest1 := fun e => hrest (by simp [e])
          have hl1 : rest1.length ≤ n := by simp at hl; omega
          simp only [List.cons_append, if_neg hc1, ih rest1 hl1 hrest1, Option.map_some']
      · simp only [if_neg hc92, if_neg hc, ih rest hl hrest, Option.map_some',
          List.cons_append]

theorem unescape_ref_no_backslash (s : List Nat) (h : 92 ∉ s) : unescape_ref s = s := by
  induction s with
  | nil => rfl
  | cons c rest ih =>
    have hc : c ≠ 92 := fun e => h (by simp [e])
    have hrest : 92 ∉ rest := fun e => h (by simp [e])
    rw [unescape_ref_cons, if_neg hc, ih hrest]

theorem unescape_ref_length (n : Nat) : ∀ (s : List Nat), s.length ≤ n →
    (unescape_ref s).length ≤ s.length := by
  induction n with
  | zero =>
    intro s h
    have : s = [] := List.length_eq_zero.mp (Nat.le_zero.mp h)
    subst this
    simp [unescape_ref]
  | succ n ih =>
    intro s h
    cases s with
    | nil => simp [unescape_ref]
    | cons c rest =>
      have hl : rest.length ≤ n := by simp at h; omega
      rw [unescape_ref_cons]
      by_cases hc92 : c = 92
      · simp only [hc92, if_true]
        cases rest with
        | nil => simp
        | cons c1 rest1 =>
          have hl1 : rest1.length ≤ n := by simp at hl; omega
          have := ih rest1 hl1
          simp only [List.length_cons]
          omega
      · simp only [if_neg hc92, List.length_cons]
        have := ih rest hl
        omega

theorem unescape_ref_no_nul (n : Nat) : ∀ (s : List Nat), s.length ≤ n → 0 ∉ s →
    0 ∉ unescape_ref s := by
  induction n with
  | zero =>
    intro s h _
    have : s = [] := List.length_eq_zero.mp (Nat.le_zero.mp h)
    subst this
    simp [unescape_ref]
  | succ n ih =>
    intro s h hs
    cases s with
    | nil => simp [unescape_ref]
    | cons c rest =>
      have hc : c ≠ 0 := fun e => hs (by simp [e])
      have hrest : 0 ∉ rest := fun e => hs (by simp [e])
      have hl : rest.length ≤ n := by simp at h; omega
      rw [unescape_ref_cons]
      by_cases hc92 : c = 92
      · simp only [hc92, if_true]
        cases rest with
        | nil => simp
        | cons c1 rest1 =>
          have hc1 : c1 ≠ 0 := fun e => hrest (by simp [e])
          have hrest1 : 0 ∉ rest1 := fun e => hrest (by simp [e])
          have hl1 : rest1.length ≤ n := by simp at hl; omega
          have := ih rest1 hl1 hrest1
          simp only [List.mem_cons, not_or]
          exact ⟨fun e => hc1 e.symm, this⟩
      · simp only [if_neg hc92, List.mem_cons, not_or]
        exact ⟨fun e => hc e.symm, ih rest hl hrest⟩

theorem unescape_accesses_erase (fuel : Nat) :
    ∀ (buf : List Nat) (s d : Nat) (log : List Access),
      (ovl_unescape_accesses_loop fuel buf s d log).map (fun r => r.1)
        = ovl_unescape_loop fuel buf s d := by
  induction fuel with
  | zero => intro buf s d log; rfl
  | succ fuel ih =>
    intro buf s d log
    rw [ovl_unescape_accesses_loop, ovl_unescape_loop]
    cases buf[s]? with
    | none => rfl
    | some c =>
      simp only []
      cases buf[if c = 92 then s + 1 else s]? with
      | none => rfl
      | some c1 =>
        simp only []
        cases (buf.set d c1)[if c = 92 then s + 1 else s]? with
        | none => rfl
        | some c2 =>
          simp only []
          split
          · rfl
          · exact ih _ _ _ _

theorem read_some_lt {l : List Nat} {i c : Nat} (h : l[i]? = some c) : i < l.length := by
  by_contra hn
  rw [List.getElem?_eq_none (by omega)] at h
  cases h

theorem unescape_accesses_bounds (fuel : Nat) :
    ∀ (buf : List Nat) (s d : Nat) (log : List Access) (r : List Nat × List Access),
      d ≤ s → ovl_unescape_accesses_loop fuel buf s d log = some r →
      ∃ new, r.2 = log ++ new ∧ ∀ e ∈ new, Access.in_bounds (buf.length - 1) e := by
  induction fuel with
  | zero =>
    intro buf s d log r _ h
    cases h
  | succ fuel ih =>
    intro buf s d log r hds h
    rw [ovl_unescape_accesses_loop] at h
    cases h0 : buf[s]? with
    | none => rw [h0] at h; cases h
    | some c =>
      have hs := read_some_lt h0
      rw [h0] at h
      simp only [] at h
      cases h1 : buf[if c = 92 then s + 1 else s]? with
      | none => rw [h1] at h; cases h
      | some c1 =>
        have hs1 := read_some_lt h1
        have hle : s ≤ (if c = 92 then s + 1 else s) := by split <;> omega
        rw [h1] at h
        simp only [] at h
        cases h2 : (buf.set d c1)[if c = 92 then s + 1 else s]? with
        | none => rw [h2] at h; cases h
        | some c2 =>
          rw [h2] at h
          simp only [] at h
          have hb : ∀ e ∈ [Access.read s, Access.read (if c = 92 then s + 1 else s),
              Access.write d (if c = 92 then s + 1 else s),
              Access.read (if c = 92 then s + 1 else s)],
              Access.in_bounds (buf.length - 1) e := by
            intro e he
            simp only [List.mem_cons, List.mem_singleton, List.not_mem_nil, or_false] at he
            rcases he with rfl | rfl | rfl | rfl <;> simp only [Access.in_bounds] <;> omega
          split at h
          · cases h
            exact ⟨_, rfl, hb⟩
          · obtain ⟨new, e1, e2⟩ := ih _ _ _ _ r (by omega) h
            refine ⟨[Access.read s, Access.read (if c = 92 then s + 1 else s),
              Access.write d (if c = 92 then s + 1 else s),
              Access.read (if c = 92 then s + 1 else s)] ++ new, by rw [e1]; simp, ?_⟩
            intro e he
            rcases List.mem_append.mp he with he | he
            · exact hb e he
            · have := e2 e he
              simpa using this

/-- C11. For every string `s` (bytes without NUL, stored with its terminator),
`ovl_unescape` returns and leaves the reference unescaping of `s` with its
terminator at the start of the buffer: every escaping backslash is removed, the
byte after it is kept as it is, a backslash that ends the string is dropped.
Every read is at an index not greater than the length of `s`, the index of the
terminator, and every write is at an index not greater than the read position;
the bytes after the new terminator are those of the original buffer.  A string
without backslash is left unchanged. -/
theorem ovl_unescape_reference (s : List Nat) (hs : 0 ∉ s) :
    ovl_unescape (s ++ [0])
        = some (unescape_ref s ++ 0 :: (s ++ [0]).drop ((unescape_ref s).length + 1))
      ∧ cstr_at (unescape_ref s ++ 0 :: (s ++ [0]).drop ((unescape_ref s).length + 1)) 0
          = unescape_ref s
      ∧ (∃ log, ovl_unescape_accesses (s ++ [0])
            = some (unescape_ref s ++ 0 :: (s ++ [0]).drop ((unescape_ref s).length + 1), log)
          ∧ ∀ e ∈ log, Access.in_bounds s.length e)
      ∧ (92 ∉ s → ovl_unescape (s ++ [0]) = some (s ++ [0])) := by
  have h := unescape_loop_eq (s ++ [0]).length [] [] (s ++ [0]) (Nat.le_refl _)
  simp only [List.nil_append, List.length_nil, Nat.add_zero] at h
  have hres : ovl_unescape (s ++ [0])
      = some (unescape_ref s ++ 0 :: (s ++ [0]).drop ((unescape_ref s).length + 1)) := by
    rw [ovl_unescape, h, unescape_out_terminated s.length s (Nat.le_refl _) hs]
    simp
  refine ⟨hres, ?_, ?_, ?_⟩
  · have := cstr_at_stored [] (unescape_ref s)
      ((s ++ [0]).drop ((unescape_ref s).length + 1))
      (unescape_ref_no_nul s.length s (Nat.le_refl _) hs)
    simpa using this
  · have herase := unescape_accesses_erase (s ++ [0]).length (s ++ [0]) 0 0 []
    rw [← ovl_unescape, hres] at herase
    cases hacc : ovl_unescape_accesses_loop (s ++ [0]).length (s ++ [0]) 0 0 [] with
    | none => rw [hacc] at herase; cases herase
    | some r =>
      rw [hacc] at herase
      simp only [Option.map_some', Option.some.injEq] at herase
      obtain ⟨new, hlog, hb⟩ := unescape_accesses_bounds _ _ _ _ _ r (Nat.le_refl _) hacc
      refine ⟨r.2, ?_, ?_⟩
      · rw [ovl_unescape_accesses, hacc, ← herase]
      · intro e he
        rw [hlog, List.nil_append] at he
        have := hb e he
        simpa using this
  · intro hb
    rw [hres, unescape_ref_no_backslash s hb]
    simp

/-- Witness of C11: the string `/a\:b\\c\` (an escaped colon, an escaped
backslash and a backslash at the end) becomes `/a:b\c`; the bytes after its
terminator are left over from the original, and the last read is at index 9,
the terminator. -/
theorem ovl_unescape_reference_witness :
    ovl_unescape ([47, 97, 92, 58, 98, 92, 92, 99, 92] ++ [0])
        = some [47, 97, 58, 98, 92, 99, 0, 99, 92, 0]
      ∧ unescape_ref [47, 97, 92, 58, 98, 92, 92, 99, 92] = [47, 97, 58, 98, 92, 99]
      ∧ ovl_unescape_accesses [47, 97, 92, 58, 98, 92, 92, 99, 92, 0]
        = some ([47, 97, 58, 98, 92, 99, 0, 99, 92, 0],
            [Access.read 0, Access.read 0, Access.write 0 0, Access.read 0,
             Access.read 1, Access.read 1, Access.write 1 1, Access.read 1,
             Access.read 2, Access.read 3, Access.write 2 3, Access.read 3,
             Access.read 4, Access.read 4, Access.write 3 4, Access.read 4,
             Access.read 5, Access.read 6, Access.write 4 6, Access.read 6,
             Access.read 7, Access.read 7, Access.write 5 7, Access.read 7,
             Access.read 8, Access.read 9, Access.write 6 9, Access.read 9]) :=
  ⟨(ovl_unescape_reference [47, 97, 92, 58, 98, 92, 92, 99, 92] (by decide)).1,
    by decide, by decide⟩

/-! ## Bounds of `ovl_split_lowerdirs` -/

theorem split_accesses_erase (fuel : Nat) :
    ∀ (buf : List Nat) (s d ctr : Nat) (log : List Access),
      (ovl_split_lowerdirs_accesses_loop fuel buf s d ctr log).map (fun r => (r.1, r.2.1))
        = ovl_split_lowerdirs_loop fuel buf s d ctr := by
  induction fuel with
  | zero => intro buf s d ctr log; rfl
  | succ fuel ih =>
    intro buf s d ctr log
    rw [ovl_split_lowerdirs_accesses_loop, ovl_split_lowerdirs_loop]
    cases buf[s]? with
    | none => rfl
    | some c =>
      simp only []
      split
      · cases buf[s + 1]? with
        | none => rfl
        | some c1 =>
          simp only []
          cases (buf.set d c1)[s + 1]? with
          | none => rfl
          | some c2 =>
            simp only []
            split
            · rfl
            · exact ih _ _ _ _ _
      · split
        · exact ih _ _ _ _ _
        · cases (buf.set d c)[s]? with
          | none => rfl
          | some c2 =>
            simp only []
            split
            · rfl
            · exact ih _ _ _ _ _

theorem split_accesses_bounds (fuel : Nat) :
    ∀ (buf : List Nat) (s d ctr : Nat) (log : List Access) (r : Nat × List Nat × List Access),
      d ≤ s → ovl_split_lowerdirs_accesses_loop fuel buf s d ctr log = some r →
      ∃ new, r.2.2 = log ++ new ∧ ∀ e ∈ new, Access.in_bounds (buf.length - 1) e := by
  induction fuel with
  | zero =>
    intro buf s d ctr log r _ h
    cases h
  | succ fuel ih =>
    intro buf s d ctr log r hds h
    rw [ovl_split_lowerdirs_accesses_loop] at h
    cases h0 : buf[s]? with
    | none => rw [h0] at h; cases h
    | some c =>
      have hs := read_some_lt h0
      rw [h0] at h
      simp only [] at h
      split at h
      · cases h1 : buf[s + 1]? with
        | none => rw [h1] at h; cases h
        | some c1 =>
          have hs1 := read_some_lt h1
          rw [h1] at h
          simp only [] at h
          cases h2 : (buf.set d c1)[s + 1]? with
          | none => rw [h2] at h; cases h
          | some c2 =>
            rw [h2] at h
            simp only [] at h
            have hb : ∀ e ∈ [Access.read s, Access.read (s + 1), Access.write d (s + 1),
                Access.read (s + 1)], Access.in_bounds (buf.length - 1) e := by
              intro e he
              simp only [List.mem_cons, List.mem_singleton, List.not_mem_nil, or_false] at he
              rcases he with rfl | rfl | rfl | rfl <;> simp only [Access.in_bounds] <;> omega
            split at h
            · cases h
              exact ⟨_, by simp, hb⟩
            · obtain ⟨new, e1, e2⟩ := ih _ _ _ _ _ r (by omega) h
              refine ⟨[Access.read s, Access.read (s + 1), Access.write d (s + 1),
                Access.read (s + 1)] ++ new, by rw [e1]; simp, ?_⟩
              intro e he
              rcases List.mem_append.mp he with he | he
              · exact hb e he
              · have := e2 e he
                simpa using this
      · split at h
        · have hb : ∀ e ∈ [Access.read s, Access.write d s],
              Access.in_bounds (buf.length - 1) e := by
            intro e he
            simp only [List.mem_cons, List.mem_singleton, List.not_mem_nil, or_false] at he
            rcases he with rfl | rfl <;> simp only [Access.in_bounds] <;> omega
          obtain ⟨new, e1, e2⟩ := ih _ _ _ _ _ r (by omega) h
          refine ⟨[Access.read s, Access.write d s] ++ new, by rw [e1]; simp, ?_⟩
          intro e he
          rcases List.mem_append.mp he with he | he
          · exact hb e he
          · have := e2 e he
            simpa using this
        · cases h2 : (buf.set d c)[s]? with
          | none => rw [h2] at h; cases h
          | some c2 =>
            rw [h2] at h
            simp only [] at h
            have hb : ∀ e ∈ [Access.read s, Access.write d s, Access.read s],
                Access.in_bounds (buf.length - 1) e := by
              intro e he
              simp only [List.mem_cons, List.mem_singleton, List.not_mem_nil, or_false] at he
              rcases he with rfl | rfl | rfl <;> simp only [Access.in_bounds] <;> omega
            split at h
            · cases h
              exact ⟨_, by simp, hb⟩
            · obtain ⟨new, e1, e2⟩ := ih _ _ _ _ _ r (by omega) h
              refine ⟨[Access.read s, Access.write d s, Access.read s] ++ new,
                by rw [e1]; simp, ?_⟩
              intro e he
              rcases List.mem_append.mp he with he | he
              · exact hb e he
              · have := e2 e he
                simpa using this

theorem unescaped_colons_cons (c : Nat) (rest : List Nat) :
    unescaped_colons (c :: rest) =
      if c = 92 then
        match rest with
        | [] => 0
        | _ :: rest1 => unescaped_colons rest1
      else if c = 58 then unescaped_colons rest + 1
      else unescaped_colons rest := by
  cases rest <;> simp [unescaped_colons]

theorem split_segments_cons (c : Nat) (rest : List Nat) :
    split_segments (c :: rest) =
      if c = 92 then
        match rest with
        | [] => [[]]
        | c1 :: rest1 => push_front c1 (split_segments rest1)
      else if c = 58 then [] :: split_segments rest
      else push_front c (split_segments rest) := by
  cases rest <;> simp [split_segments]

theorem SplitOk.push {n : Nat} {segs : List (List Nat)} {colons : Nat} (c k : Nat)
    (hc : c ≠ 0) (hk : 1 ≤ k) (h : SplitOk n segs colons) :
    SplitOk (n + k) (push_front c segs) colons
      ∧ stored_names (push_front c segs) = c :: stored_names segs := by
  obtain ⟨h1, h2, h3, h4, h5⟩ := h
  cases segs with
  | nil => exact absurd rfl h1
  | cons p ps =>
    refine ⟨⟨by simp [push_front], by simpa [push_front] using h2, ?_, ?_, by omega⟩, ?_⟩
    · intro q hq
      simp only [push_front, List.mem_cons] at hq
      rcases hq with rfl | hq
      · have := h3 p (by simp)
        simp only [List.mem_cons, not_or]
        exact ⟨fun e => hc e.symm, this⟩
      · exact h3 q (by simp [hq])
    · simp only [push_front, stored_names, List.cons_append, List.length_cons,
        List.length_append] at h4 ⊢
      omega
    · simp [push_front, stored_names]

theorem split_ref_terminated (n : Nat) : ∀ (s : List Nat), s.length ≤ n → 0 ∉ s →
    split_ref (s ++ [0]) = some (stored_names (split_segments s), unescaped_colons s)
      ∧ SplitOk s.length (split_segments s) (unescaped_colons s) := by
  induction n with
  | zero =>
    intro s h _
    have : s = [] := List.length_eq_zero.mp (Nat.le_zero.mp h)
    subst this
    refine ⟨by simp [split_ref_cons, split_segments, unescaped_colons, stored_names], ?_⟩
    exact ⟨by simp [split_segments], by simp [split_segments, unescaped_colons],
      by simp [split_segments], by simp [split_segments, stored_names],
      by simp [unescaped_colons]⟩
  | succ n ih =>
    intro s h hs
    cases s with
    | nil =>
      refine ⟨by simp [split_ref_cons, split_segments, unescaped_colons, stored_names], ?_⟩
      exact ⟨by simp [split_segments], by simp [split_segments, unescaped_colons],
        by simp [split_segments], by simp [split_segments, stored_names],
        by simp [unescaped_colons]⟩
    | cons c rest =>
      have hc : c ≠ 0 := fun e => hs (by simp [e])
      have hrest : 0 ∉ rest := fun e => hs (by simp [e])
      have hl : rest.length ≤ n := by simp at h; omega
      rw [List.cons_append, split_ref_cons, split_segments_cons, unescaped_colons_cons]
      by_cases hc92 : c = 92
      · simp only [hc92, if_true]
        cases rest with
        | nil =>
          refine ⟨by simp [stored_names], ?_⟩
          exact ⟨by simp, by simp, by simp, by simp [stored_names], by simp⟩
        | cons c1 rest1 =>
          have hc1 : c1 ≠ 0 := fun e => hrest (by simp [e])
          have hrest1 : 0 ∉ rest1 := fun e => hrest (by simp [e])
          have hl1 : rest1.length ≤ n := by simp at hl; omega
          obtain ⟨i1, i2⟩ := ih rest1 hl1 hrest1
          obtain ⟨p1, p2⟩ := SplitOk.push c1 2 hc1 (by omega) i2
          refine ⟨?_, ?_⟩
          · simp only [List.cons_append, if_neg hc1, i1, Option.map_some', p2]
          · simpa [Nat.add_assoc] using p1
      · simp only [if_neg hc92]
        obtain ⟨i1, i2⟩ := ih rest hl hrest
        by_cases hc58 : c = 58
        · simp only [hc58, if_true, i1, Option.map_some']
          refine ⟨by simp [stored_names], ?_⟩
          obtain ⟨h1, h2, h3, h4, h5⟩ := i2
          refine ⟨by simp, by simp [h2], ?_, ?_, by simp; omega⟩
          · intro q hq
            rcases List.mem_cons.mp hq with rfl | hq
            · simp
            · exact h3 q hq
          · simp only [stored_names, List.nil_append, List.length_cons]
            omega
        · obtain ⟨p1, p2⟩ := SplitOk.push c 1 hc (by omega) i2
          simp only [if_neg hc58, if_neg hc, i1, Option.map_some', p2]
          exact ⟨trivial, p1⟩

theorem lower_starts_stored (ps : List (List Nat)) (hnul : ∀ p ∈ ps, 0 ∉ p) :
    ∀ (pre junk : List Nat),
      ∃ starts, lower_starts (pre ++ (stored_names ps ++ junk)) ps.length pre.length
          = some starts
        ∧ starts.length = ps.length
        ∧ ∀ i ∈ starts, i < pre.length + (stored_names ps).length := by
  induction ps with
  | nil => intro pre junk; exact ⟨[], by simp [lower_starts]⟩
  | cons p ps ih =>
    intro pre junk
    have hp : 0 ∉ p := hnul p (by simp)
    have hc : cstr_at (pre ++ (stored_names (p :: ps) ++ junk)) pre.length = p := by
      have := cstr_at_stored pre p (stored_names ps ++ junk) hp
      simpa [stored_names] using this
    have hchr : strchr_nul (pre ++ (stored_names (p :: ps) ++ junk)) pre.length
        = some (pre.length + p.length) := by
      unfold strchr_nul
      rw [hc, if_pos]
      simp [stored_names]
    obtain ⟨starts, h1, h2, h3⟩ := ih (fun x hx => hnul x (by simp [hx])) (pre ++ p ++ [0]) junk
    have hbuf : pre ++ (stored_names (p :: ps) ++ junk)
        = pre ++ p ++ [0] ++ (stored_names ps ++ junk) := by simp [stored_names]
    have hidx : pre.length + p.length + 1 = (pre ++ p ++ [0]).length := by simp [Nat.add_assoc]
    refine ⟨pre.length :: starts, ?_, by simp [h2], ?_⟩
    · simp only [List.length_cons, lower_starts, hchr]
      rw [hbuf, hidx, h1]
      rfl
    · intro i hi
      rcases List.mem_cons.mp hi with rfl | hi
      · simp [stored_names]
      · have := h3 i hi
        simp only [List.length_append, List.length_cons, List.length_nil, stored_names] at this ⊢
        omega

/-- C13. For every NUL-terminated string of length `n` (fewer than `2 ^ 32 - 1`
bytes, the count being an `unsigned int`; the string may end with a backslash,
be empty or consist of colons), `ovl_split_lowerdirs` returns: every read is at
an index not greater than `n`, every write is at an index not greater than the
read position, and the count `c` is 1 + the number of unescaped colons, so
`c ≥ 1`.  The buffer then starts with exactly `c` segments without NUL, each
followed by its terminator, back to back; the rest of the buffer is as before.
The walk of `ovl_fill_super` over `c` names finds a terminator for each, starts
every name at an index not greater than `n` and reads exactly those
segments. -/
theorem ovl_split_lowerdirs_in_bounds (s : List Nat) (hs : 0 ∉ s)
    (hlen : s.length + 1 < 2 ^ 32) :
    ∃ buf log starts,
      ovl_split_lowerdirs_accesses (s ++ [0]) = some (1 + unescaped_colons s, buf, log)
      ∧ ovl_split_lowerdirs (s ++ [0]) = some (1 + unescaped_colons s, buf)
      ∧ (∀ e ∈ log, Access.in_bounds s.length e)
      ∧ 1 ≤ 1 + unescaped_colons s
      ∧ (split_segments s).length = 1 + unescaped_colons s
      ∧ (∀ p ∈ split_segments s, 0 ∉ p)
      ∧ buf = stored_names (split_segments s)
          ++ (s ++ [0]).drop (stored_names (split_segments s)).length
      ∧ lower_starts buf (1 + unescaped_colons s) 0 = some starts
      ∧ starts.length = 1 + unescaped_colons s
      ∧ (∀ i ∈ starts, i ≤ s.length)
      ∧ lower_names buf (1 + unescaped_colons s) 0 = split_segments s := by
  obtain ⟨href, hok⟩ := split_ref_terminated s.length s (Nat.le_refl _) hs
  obtain ⟨_, hcount, hnul, hstored, hcol⟩ := hok
  have hloop := split_loop_eq (s ++ [0]).length [] [] (s ++ [0]) 1 (Nat.le_refl _)
    (by norm_num)
  simp only [List.nil_append, List.length_nil, Nat.add_zero] at hloop
  have hmod : (1 + unescaped_colons s) % 2 ^ 32 = 1 + unescaped_colons s :=
    Nat.mod_eq_of_lt (by omega)
  have hbase : ovl_split_lowerdirs (s ++ [0]) = some (1 + unescaped_colons s,
      stored_names (split_segments s)
        ++ (s ++ [0]).drop (stored_names (split_segments s)).length) := by
    rw [ovl_split_lowerdirs, hloop, href]
    simp only [Option.map_some', hmod]
  have herase := split_accesses_erase (s ++ [0]).length (s ++ [0]) 0 0 1 []
  rw [← ovl_split_lowerdirs, hbase] at herase
  cases hacc : ovl_split_lowerdirs_accesses_loop (s ++ [0]).length (s ++ [0]) 0 0 1 [] with
  | none => rw [hacc] at herase; cases herase
  | some r =>
    rw [hacc] at herase
    simp only [Option.map_some', Option.some.injEq, Prod.mk.injEq] at herase
    obtain ⟨new, hlog, hb⟩ := split_accesses_bounds _ _ _ _ _ _ r (Nat.le_refl _) hacc
    obtain ⟨starts, hst1, hst2, hst3⟩ := lower_starts_stored (split_segments s) hnul []
      ((s ++ [0]).drop (stored_names (split_segments s)).length)
    have hnames := lower_names_stored (split_segments s) hnul []
      ((s ++ [0]).drop (stored_names (split_segments s)).length)
    simp only [List.nil_append, List.length_nil, Nat.zero_add, hcount] at hst1 hst2 hst3 hnames
    rw [Nat.add_comm] at hst1 hst2 hnames
    refine ⟨r.2.1, r.2.2, starts, ?_, ?_, ?_, by omega, by omega, hnul, herase.2.symm ▸ rfl,
      ?_, hst2, ?_, ?_⟩
    · rw [ovl_split_lowerdirs_accesses, hacc, ← herase.1]
    · rw [hbase, herase.2]
    · intro e he
      rw [hlog, List.nil_append] at he
      have := hb e he
      simpa using this
    · rw [herase.2]
      exact hst1
    · intro i hi
      have := hst3 i hi
      omega
    · rw [herase.2]
      exact hnames

/-- Witness of C13: the string `:/a\`, of length 4, starts with a colon and ends
with a backslash; the split returns 2 and stores an empty name and `/a`, the
last read is at index 4, and the two names start at indexes 0 and 1. -/
theorem ovl_split_lowerdirs_in_bounds_witness :
    (∃ buf log starts,
      ovl_split_lowerdirs_accesses ([58, 47, 97, 92] ++ [0])
          = some (1 + unescaped_colons [58, 47, 97, 92], buf, log)
      ∧ ovl_split_lowerdirs ([58, 47, 97, 92] ++ [0])
          = some (1 + unescaped_colons [58, 47, 97, 92], buf)
      ∧ (∀ e ∈ log, Access.in_bounds [58, 47, 97, 92].length e)
      ∧ 1 ≤ 1 + unescaped_colons [58, 47, 97, 92]
      ∧ (split_segments [58, 47, 97, 92]).length = 1 + unescaped_colons [58, 47, 97, 92]
      ∧ (∀ p ∈ split_segments [58, 47, 97, 92], 0 ∉ p)
      ∧ buf = stored_names (split_segments [58, 47, 97, 92])
          ++ ([58, 47, 97, 92] ++ [0]).drop
              (stored_names (split_segments [58, 47, 97, 92])).length
      ∧ lower_starts buf (1 + unescaped_colons [58, 47, 97, 92]) 0 = some starts
      ∧ starts.length = 1 + unescaped_colons [58, 47, 97, 92]
      ∧ (∀ i ∈ starts, i ≤ [58, 47, 97, 92].length)
      ∧ lower_names buf (1 + unescaped_colons [58, 47, 97, 92]) 0
          = split_segments [58, 47, 97, 92])
    ∧ ovl_split_lowerdirs_accesses [58, 47, 97, 92, 0]
        = some (2, [0, 47, 97, 0, 0],
            [Access.read 0, Access.write 0 0, Access.read 1, Access.write 1 1, Access.read 1,
             Access.read 2, Access.write 2 2, Access.read 2, Access.read 3, Access.read 4,
             Access.write 3 4, Access.read 4])
    ∧ lower_starts [0, 47, 97, 0, 0] 2 0 = some [0, 1]
    ∧ split_segments [58, 47, 97, 92] = [[], [47, 97]] :=
  ⟨ovl_split_lowerdirs_in_bounds [58, 47, 97, 92] (by decide) (by norm_num),
    by decide, by decide, by decide⟩

/-! ## Revalidation -/

theorem revalidate_loop_pass (K : KConst) (flags : Nat) (pre : List LowerDentry) :
    ∀ (rest : List LowerDentry) (i : Nat) (tr : List RevalEvent),
      (∀ x ∈ pre, has_revalidate K x = true → 0 < x.d_revalidate flags) →
      ovl_dentry_revalidate_loop K flags (pre ++ rest) i tr
        = ovl_dentry_revalidate_loop K flags rest (i + pre.length)
            (tr ++ hook_calls (has_revalidate K) RevalEvent.d_revalidate pre i) := by
  induction pre with
  | nil => intro rest i tr _; simp [hook_calls]
  | cons d pre ih =>
    intro rest i tr h
    have hd := h d (by simp)
    have ih' := fun tr => ih rest (i + 1) tr (fun x hx => h x (by simp [hx]))
    rw [List.cons_append, ovl_dentry_revalidate_loop]
    simp only [hook_calls, List.length_cons]
    by_cases hf : d.d_flags &&& K.DCACHE_OP_REVALIDATE = 0
    · have hb : has_revalidate K d = false := by simp [has_revalidate, hf]
      simp only [hf, ne_eq, not_true_eq_false, if_false, hb, List.nil_append, Bool.false_eq_true]
      rw [ih']
      congr 1
      omega
    · have hb : has_revalidate K d = true := by simp [has_revalidate, hf]
      have hpos := hd hb
      simp only [ne_eq, hf, not_false_eq_true, if_true, hb, if_neg (not_lt.mpr (le_of_lt hpos)),
        if_neg (ne_of_gt hpos)]
      rw [ih']
      simp only [List.append_assoc]
      congr 1
      omega

theorem revalidate_loop_all (K : KConst) (flags : Nat) (ds : List LowerDentry) (i : Nat)
    (tr : List RevalEvent)
    (h : ∀ x ∈ ds, has_revalidate K x = true → 0 < x.d_revalidate flags) :
    ovl_dentry_revalidate_loop K flags ds i tr
      = (1, tr ++ hook_calls (has_revalidate K) RevalEvent.d_revalidate ds i) := by
  have := revalidate_loop_pass K flags ds [] i tr h
  rw [List.append_nil] at this
  rw [this, ovl_dentry_revalidate_loop]

theorem revalidate_loop_stop (K : KConst) (flags : Nat) (pre : List LowerDentry)
    (d : LowerDentry) (post : List LowerDentry) (i : Nat) (tr : List RevalEvent)
    (hpre : ∀ x ∈ pre, has_revalidate K x = true → 0 < x.d_revalidate flags)
    (hd : has_revalidate K d = true) (hr : d.d_revalidate flags ≤ 0) :
    ovl_dentry_revalidate_loop K flags (pre ++ d :: post) i tr
      = (if d.d_revalidate flags < 0 then d.d_revalidate flags else -K.ESTALE,
          tr ++ hook_calls (has_revalidate K) RevalEvent.d_revalidate pre i
            ++ [RevalEvent.d_revalidate (i + pre.length)]
            ++ (if d.d_revalidate flags = 0 ∧ flags &&& K.LOOKUP_RCU = 0
                then [RevalEvent.d_invalidate (i + pre.length)] else [])) := by
  rw [revalidate_loop_pass K flags pre (d :: post) i tr hpre, ovl_dentry_revalidate_loop]
  have hf : d.d_flags &&& K.DCACHE_OP_REVALIDATE ≠ 0 := by
    simpa [has_revalidate] using hd
  rw [if_pos hf]
  by_cases hneg : d.d_revalidate flags < 0
  · have hne : ¬ (d.d_revalidate flags = 0 ∧ flags &&& K.LOOKUP_RCU = 0) :=
      fun h => absurd h.1 (ne_of_lt hneg)
    simp only [hneg, if_true, if_neg hne, List.append_nil]
  · have hz : d.d_revalidate flags = 0 := le_antisymm hr (not_lt.mp hneg)
    simp only [hz, lt_self_iff_false, if_false, if_true, true_and]
    by_cases hrcu : flags &&& K.LOOKUP_RCU = 0
    · simp only [hrcu, if_true]
    · simp only [hrcu, if_false, List.append_nil]

/-- C6. `ovl_dentry_revalidate` calls the `d_revalidate` hooks in stack order,
only of the layers that have one.  If every hook it calls returns a positive
value (or no layer has a hook) it returns exactly 1.  Otherwise it stops at the
first layer `d` whose hook returns a non-positive value: it returns that value
when it is negative and `-ESTALE` when it is 0, it invalidates that entry
exactly when the result is 0 and `LOOKUP_RCU` is not set in `flags`, and it
calls no hook of a later layer. -/
theorem ovl_dentry_revalidate_stops_at_first (K : KConst) (flags : Nat)
    (lowerstack : List LowerDentry) :
    ((∀ x ∈ lowerstack, has_revalidate K x = true → 0 < x.d_revalidate flags) →
      ovl_dentry_revalidate K lowerstack flags
        = (1, hook_calls (has_revalidate K) RevalEvent.d_revalidate lowerstack 0))
    ∧ (∀ (pre : List LowerDentry) (d : LowerDentry) (post : List LowerDentry),
        lowerstack = pre ++ d :: post →
        (∀ x ∈ pre, has_revalidate K x = true → 0 < x.d_revalidate flags) →
        has_revalidate K d = true → d.d_revalidate flags ≤ 0 →
        ovl_dentry_revalidate K lowerstack flags
          = (if d.d_revalidate flags < 0 then d.d_revalidate flags else -K.ESTALE,
              hook_calls (has_revalidate K) RevalEvent.d_revalidate pre 0
                ++ [RevalEvent.d_revalidate pre.length]
                ++ (if d.d_revalidate flags = 0 ∧ flags &&& K.LOOKUP_RCU = 0
                    then [RevalEvent.d_invalidate pre.length] else []))) := by
  constructor
  · intro h
    have := revalidate_loop_all K flags lowerstack 0 [] h
    simpa [ovl_dentry_revalidate] using this
  · intro pre d post hds hpre hd hr
    subst hds
    have := revalidate_loop_stop K flags pre d post 0 [] hpre hd hr
    simpa [ovl_dentry_revalidate] using this

/-- Witness of C6: in blocking mode (`flags = 0`) the third layer's hook returns
0, the function returns `-ESTALE` and invalidates that layer; the hook of the
fourth layer is not called. -/
theorem ovl_dentry_revalidate_stops_at_first_witness :
    ovl_dentry_revalidate linux_consts reval_stack 0
      = (-116, [RevalEvent.d_revalidate 0, RevalEvent.d_revalidate 2,
                RevalEvent.d_invalidate 2]) :=
  (ovl_dentry_revalidate_stops_at_first linux_consts 0 reval_stack).2
    [⟨4, fun _ => 1, fun _ => 1⟩, ⟨0, fun _ => -5, fun _ => -5⟩]
    ⟨4, fun _ => 0, fun _ => 0⟩ [⟨4, fun _ => -5, fun _ => -5⟩] rfl
    (by intro x hx hh
        simp only [List.mem_cons, List.mem_singleton, List.not_mem_nil, or_false] at hx
        rcases hx with rfl | rfl
        · decide
        · exact absurd hh (by decide))
    (by decide) (by decide)

/-- Counterexample to C7: on a stack whose first non-positive hook result is 0,
the value returned with `LOOKUP_RCU` set (`flags = 64`) is the value returned
without it (`flags = 0`), namely `-ESTALE`; the two runs differ only in the call
of `d_invalidate`. -/
theorem ovl_dentry_revalidate_rcu_not_distinct :
    ¬ ((ovl_dentry_revalidate linux_consts reval_stack 64).1
        ≠ (ovl_dentry_revalidate linux_consts reval_stack 0).1)
      ∧ (ovl_dentry_revalidate linux_consts reval_stack 64).1 = -linux_consts.ESTALE
      ∧ (ovl_dentry_revalidate linux_consts reval_stack 0).1 = -linux_consts.ESTALE := by
  decide

/-- C7, amended. When the first non-positive hook result is 0 (the layer reports
invalidation), `ovl_dentry_revalidate` returns `-ESTALE` whatever `flags` is; with
`LOOKUP_RCU` set it makes the same hook calls and does not call `d_invalidate`,
and that is the only difference from blocking mode. -/
theorem ovl_dentry_revalidate_stale_in_both_modes (K : KConst) (flags : Nat)
    (pre : List LowerDentry) (d : LowerDentry) (post : List LowerDentry)
    (hpre : ∀ x ∈ pre, has_revalidate K x = true → 0 < x.d_revalidate flags)
    (hd : has_revalidate K d = true) (hr : d.d_revalidate flags = 0) :
    (ovl_dentry_revalidate K (pre ++ d :: post) flags).1 = -K.ESTALE
      ∧ (flags &&& K.LOOKUP_RCU ≠ 0 →
          (ovl_dentry_revalidate K (pre ++ d :: post) flags).2
            = hook_calls (has_revalidate K) RevalEvent.d_revalidate pre 0
                ++ [RevalEvent.d_revalidate pre.length])
      ∧ (flags &&& K.LOOKUP_RCU = 0 →
          (ovl_dentry_revalidate K (pre ++ d :: post) flags).2
            = hook_calls (has_revalidate K) RevalEvent.d_revalidate pre 0
                ++ [RevalEvent.d_revalidate pre.length, RevalEvent.d_invalidate pre.length]) := by
  have h := revalidate_loop_stop K flags pre d post 0 [] hpre hd (le_of_eq hr)
  simp only [hr, lt_self_iff_false, if_false, true_and, List.nil_append, Nat.zero_add] at h
  unfold ovl_dentry_revalidate
  rw [h]
  refine ⟨rfl, ?_, ?_⟩
  · intro hrcu
    simp [hrcu]
  · intro hrcu
    simp [hrcu]

/-- Witness of C7 as amended: with `LOOKUP_RCU` set (`flags = 64`) the run on the
concrete stack returns `-ESTALE` and calls only the two hooks. -/
theorem ovl_dentry_revalidate_stale_in_both_modes_witness :
    (ovl_dentry_revalidate linux_consts reval_stack 64).1 = -116
      ∧ (ovl_dentry_revalidate linux_consts reval_stack 64).2
          = [RevalEvent.d_revalidate 0, RevalEvent.d_revalidate 2] :=
  have h := ovl_dentry_revalidate_stale_in_both_modes linux_consts 64
    [⟨4, fun _ => 1, fun _ => 1⟩, ⟨0, fun _ => -5, fun _ => -5⟩]
    ⟨4, fun _ => 0, fun _ => 0⟩ [⟨4, fun _ => -5, fun _ => -5⟩]
    (by intro x hx hh
        simp only [List.mem_cons, List.mem_singleton, List.not_mem_nil, or_false] at hx
        rcases hx with rfl | rfl
        · decide
        · exact absurd hh (by decide))
    (by decide) rfl
  ⟨h.1, h.2.1 (by decide)⟩

theorem weak_revalidate_loop_stop (K : KConst) (flags : Nat) (pre : List LowerDentry)
    (d : LowerDentry) (post : List LowerDentry) :
    ∀ (i : Nat) (ret : Int) (tr : List RevalEvent),
      (∀ x ∈ pre, has_weak_revalidate K x = true → 0 < x.d_weak_revalidate flags) →
      has_weak_revalidate K d = true → d.d_weak_revalidate flags ≤ 0 →
      ovl_dentry_weak_revalidate_loop K flags (pre ++ d :: post) i ret tr
        = (d.d_weak_revalidate flags,
            tr ++ hook_calls (has_weak_revalidate K) RevalEvent.d_weak_revalidate pre i
              ++ [RevalEvent.d_weak_revalidate (i + pre.length)]) := by
  induction pre with
  | nil =>
    intro i ret tr _ hd hr
    have hf : d.d_flags &&& K.DCACHE_OP_WEAK_REVALIDATE ≠ 0 := by
      simpa [has_weak_revalidate] using hd
    rw [List.nil_append, ovl_dentry_weak_revalidate_loop, if_pos hf]
    simp [hr, hook_calls]
  | cons x pre ih =>
    intro i ret tr h hd hr
    have hx := h x (by simp)
    have ih' := fun ret tr => ih (i + 1) ret tr (fun y hy => h y (by simp [hy])) hd hr
    rw [List.cons_append, ovl_dentry_weak_revalidate_loop]
    simp only [hook_calls, List.length_cons]
    by_cases hf : x.d_flags &&& K.DCACHE_OP_WEAK_REVALIDATE = 0
    · have hb : has_weak_revalidate K x = false := by simp [has_weak_revalidate, hf]
      simp only [hf, ne_eq, not_true_eq_false, if_false, hb, List.nil_append,
        Bool.false_eq_true]
      rw [ih', show i + 1 + pre.length = i + (pre.length + 1) by omega]
    · have hb : has_weak_revalidate K x = true := by simp [has_weak_revalidate, hf]
      have hpos := hx hb
      simp only [ne_eq, hf, not_false_eq_true, if_true, hb, if_neg (not_le.mpr hpos)]
      rw [ih', show i + 1 + pre.length = i + (pre.length + 1) by omega]
      simp only [List.append_assoc]

theorem weak_revalidate_loop_sign (K : KConst) (flags : Nat) (ds : List LowerDentry) :
    ∀ (i : Nat) (ret : Int) (tr : List RevalEvent), 0 < ret →
      ((ovl_dentry_weak_revalidate_loop K flags ds i ret tr).1 ≤ 0
        ↔ ∃ x ∈ ds, has_weak_revalidate K x = true ∧ x.d_weak_revalidate flags ≤ 0) := by
  induction ds with
  | nil =>
    intro i ret tr hret
    simp [ovl_dentry_weak_revalidate_loop, not_le.mpr hret]
  | cons x ds ih =>
    intro i ret tr hret
    rw [ovl_dentry_weak_revalidate_loop]
    by_cases hf : x.d_flags &&& K.DCACHE_OP_WEAK_REVALIDATE = 0
    · have hb : has_weak_revalidate K x = false := by simp [has_weak_revalidate, hf]
      simp only [hf, ne_eq, not_true_eq_false, if_false, List.exists_mem_cons_iff, hb,
        Bool.false_eq_true, false_and, false_or]
      exact ih (i + 1) ret tr hret
    · have hb : has_weak_revalidate K x = true := by simp [has_weak_revalidate, hf]
      simp only [ne_eq, hf, not_false_eq_true, if_true, List.exists_mem_cons_iff, hb, true_and]
      by_cases hr : x.d_weak_revalidate flags ≤ 0
      · simp [hr]
      · simp only [if_neg hr, hr, false_or]
        exact ih (i + 1) _ _ (not_le.mp hr)

theorem weak_revalidate_loop_trace (K : KConst) (flags : Nat) (ds : List LowerDentry) :
    ∀ (i : Nat) (ret : Int) (tr : List RevalEvent),
      ∃ evs, (ovl_dentry_weak_revalidate_loop K flags ds i ret tr).2 = tr ++ evs
        ∧ ∀ e ∈ evs, ∃ j, e = RevalEvent.d_weak_revalidate j := by
  induction ds with
  | nil => intro i ret tr; exact ⟨[], by simp [ovl_dentry_weak_revalidate_loop]⟩
  | cons x ds ih =>
    intro i ret tr
    rw [ovl_dentry_weak_revalidate_loop]
    split
    · simp only []
      split
      · exact ⟨[RevalEvent.d_weak_revalidate i], rfl, by simp⟩
      · obtain ⟨evs, h1, h2⟩ := ih (i + 1) (x.d_weak_revalidate flags)
          (tr ++ [RevalEvent.d_weak_revalidate i])
        refine ⟨RevalEvent.d_weak_revalidate i :: evs, by simp [h1], ?_⟩
        intro e he
        rcases List.mem_cons.mp he with rfl | he
        · exact ⟨i, rfl⟩
        · exact h2 e he
    · exact ih (i + 1) ret tr

theorem weak_revalidate_loop_no_hook (K : KConst) (flags : Nat) (ds : List LowerDentry) :
    ∀ (i : Nat) (ret : Int) (tr : List RevalEvent),
      (∀ x ∈ ds, has_weak_revalidate K x = false) →
      ovl_dentry_weak_revalidate_loop K flags ds i ret tr = (ret, tr) := by
  induction ds with
  | nil => intro i ret tr _; rfl
  | cons x ds ih =>
    intro i ret tr h
    have hx : x.d_flags &&& K.DCACHE_OP_WEAK_REVALIDATE = 0 := by
      have := h x (by simp)
      simpa [has_weak_revalidate] using this
    rw [ovl_dentry_weak_revalidate_loop]
    simp only [hx, ne_eq, not_true_eq_false, if_false]
    exact ih (i + 1) ret tr (fun y hy => h y (by simp [hy]))

/-- C8. `ovl_dentry_weak_revalidate` calls the `d_weak_revalidate` hooks in stack
order, only of the layers that have one.  It stops at the first layer `d` whose
hook returns a non-positive value and returns that value unchanged, having
called no hook of a later layer.  Every call it makes is a hook call (it never
invalidates an entry).  Its result is non-positive exactly when some layer with
a hook returns a non-positive value, and it is 1, with no call at all, when no
layer has a weak hook. -/
theorem ovl_dentry_weak_revalidate_stops_at_first (K : KConst) (flags : Nat)
    (lowerstack : List LowerDentry) :
    (∀ (pre : List LowerDentry) (d : LowerDentry) (post : List LowerDentry),
        lowerstack = pre ++ d :: post →
        (∀ x ∈ pre, has_weak_revalidate K x = true → 0 < x.d_weak_revalidate flags) →
        has_weak_revalidate K d = true → d.d_weak_revalidate flags ≤ 0 →
        ovl_dentry_weak_revalidate K lowerstack flags
          = (d.d_weak_revalidate flags,
              hook_calls (has_weak_revalidate K) RevalEvent.d_weak_revalidate pre 0
                ++ [RevalEvent.d_weak_revalidate pre.length]))
    ∧ (∀ e ∈ (ovl_dentry_weak_revalidate K lowerstack flags).2,
        ∃ j, e = RevalEvent.d_weak_revalidate j)
    ∧ ((ovl_dentry_weak_revalidate K lowerstack flags).1 ≤ 0
        ↔ ∃ x ∈ lowerstack, has_weak_revalidate K x = true ∧ x.d_weak_revalidate flags ≤ 0)
    ∧ ((∀ x ∈ lowerstack, has_weak_revalidate K x = false) →
        ovl_dentry_weak_revalidate K lowerstack flags = (1, [])) := by
  refine ⟨?_, ?_, ?_, ?_⟩
  · intro pre d post hds hpre hd hr
    subst hds
    have := weak_revalidate_loop_stop K flags pre d post 0 1 [] hpre hd hr
    simpa [ovl_dentry_weak_revalidate] using this
  · obtain ⟨evs, h1, h2⟩ := weak_revalidate_loop_trace K flags lowerstack 0 1 []
    intro e he
    unfold ovl_dentry_weak_revalidate at he
    rw [h1] at he
    exact h2 e (by simpa using he)
  · exact weak_revalidate_loop_sign K flags lowerstack 0 1 [] (by decide)
  · intro h
    exact weak_revalidate_loop_no_hook K flags lowerstack 0 1 [] h

/-- Witness of C8: on the concrete stack the weak hook of the second layer
returns -7; the function returns -7 after the calls to the first two layers. -/
theorem ovl_dentry_weak_revalidate_stops_at_first_witness :
    ovl_dentry_weak_revalidate linux_consts weak_stack 0
      = (-7, [RevalEvent.d_weak_revalidate 0, RevalEvent.d_weak_revalidate 1]) :=
  (ovl_dentry_weak_revalidate_stops_at_first linux_consts 0 weak_stack).1
    [⟨2048, fun _ => 1, fun _ => 3⟩] ⟨2052, fun _ => 1, fun _ => -7⟩
    [⟨2048, fun _ => 1, fun _ => 0⟩] rfl
    (by intro x hx _
        simp only [List.mem_singleton] at hx
        subst hx
        decide)
    (by decide) (by decide)

/-! ## The work directory -/

theorem workdir_create_mkdir_events (K : Kernel) (work : Dentry) (tr : List Event) :
    ∃ evs, (ovl_workdir_create_mkdir K work tr).2 = tr ++ Event.ovl_create_real :: evs
      ∧ Event.lookup_one_len ∉ evs ∧ Event.ovl_workdir_cleanup ∉ evs
      ∧ Event.ovl_create_real ∉ evs := by
  unfold ovl_workdir_create_mkdir
  simp only [ovl_workdir_create_out_dput]
  split_ifs
  · exact ⟨[Event.dput, Event.inode_unlock, Event.mnt_drop_write], by simp, by decide,
      by decide, by decide⟩
  · exact ⟨[Event.vfs_removexattr Xattr.POSIX_ACL_DEFAULT, Event.dput, Event.inode_unlock,
      Event.mnt_drop_write], by simp, by decide, by decide, by decide⟩
  · exact ⟨[Event.vfs_removexattr Xattr.POSIX_ACL_DEFAULT,
      Event.vfs_removexattr Xattr.POSIX_ACL_ACCESS, Event.dput, Event.inode_unlock,
      Event.mnt_drop_write], by simp, by decide, by decide, by decide⟩
  · exact ⟨[Event.vfs_removexattr Xattr.POSIX_ACL_DEFAULT,
      Event.vfs_removexattr Xattr.POSIX_ACL_ACCESS, Event.inode_lock, Event.notify_change,
      Event.inode_unlock, Event.dput, Event.inode_unlock, Event.mnt_drop_write],
      by simp, by decide, by decide, by decide⟩
  · exact ⟨[Event.vfs_removexattr Xattr.POSIX_ACL_DEFAULT,
      Event.vfs_removexattr Xattr.POSIX_ACL_ACCESS, Event.inode_lock, Event.notify_change,
      Event.inode_unlock, Event.inode_unlock, Event.mnt_drop_write],
      by simp, by decide, by decide, by decide⟩

theorem workdir_create_second_pass (K : Kernel) (dentry : Dentry) (tr : List Event) :
    ∃ r evs2, ovl_workdir_create_retry K dentry 1 true tr
        = some (r, tr ++ Event.lookup_one_len :: evs2)
      ∧ Event.lookup_one_len ∉ evs2 ∧ Event.ovl_workdir_cleanup ∉ evs2
      ∧ ∀ w2, K.lookup_one_len tr dentry = .ok w2 → w2.d_inode ≠ none →
          r = .error (-K.consts.EEXIST)
            ∧ evs2 = [Event.dput, Event.inode_unlock, Event.mnt_drop_write] := by
  rw [ovl_workdir_create_retry]
  cases h : K.lookup_one_len tr dentry with
  | error e =>
    refine ⟨.error e, [Event.inode_unlock, Event.mnt_drop_write], by simp, by decide,
      by decide, ?_⟩
    intro w2 hw2
    cases hw2
  | ok w =>
    by_cases hi : w.d_inode.isSome = true
    · refine ⟨.error (-K.consts.EEXIST), [Event.dput, Event.inode_unlock, Event.mnt_drop_write],
        by simp [hi, ovl_workdir_create_out_dput], by decide, by decide, ?_⟩
      intro w2 _ _
      exact ⟨rfl, rfl⟩
    · obtain ⟨evs, he, h1, h2, _⟩ :=
        workdir_create_mkdir_events K w (tr ++ [Event.lookup_one_len])
      cases hm : ovl_workdir_create_mkdir K w (tr ++ [Event.lookup_one_len]) with
      | mk r t =>
        rw [hm] at he
        simp only at he
        refine ⟨r, Event.ovl_create_real :: evs, ?_, ?_, ?_, ?_⟩
        · simp only [hi, Bool.false_eq_true, if_false, hm, he, List.append_assoc,
            List.singleton_append]
        · simp [h1]
        · simp [h2]
        · intro w2 hw2 hne
          cases hw2
          exact absurd (Option.isSome_iff_ne_none.mpr hne) hi

/-- C4. Whatever the underlying filesystem answers, `ovl_workdir_create` returns,
having looked up `work` at most twice and called `ovl_workdir_cleanup` at most
once.  When `mnt_want_write` succeeds and the first lookup yields a dentry `w`:
if `w` has no inode the directory is created right away (one lookup, no
cleanup, one `ovl_create_real`); if `w` has an inode there is exactly one
cleanup followed by a second lookup and no further lookup or cleanup; and if
that second lookup again yields an existing entry the result is
`ERR_PTR(-EEXIST)` after `dput`, unlock and `mnt_drop_write` only. -/
theorem ovl_workdir_create_one_retry (K : Kernel) (mnt : Mount) (dentry : Dentry)
    (tr : List Event) :
    ∃ r evs, ovl_workdir_create K mnt dentry tr = some (r, tr ++ evs)
      ∧ evs.count Event.lookup_one_len ≤ 2
      ∧ evs.count Event.ovl_workdir_cleanup ≤ 1
      ∧ (K.mnt_want_write tr mnt = 0 →
          ∀ w, K.lookup_one_len (tr ++ [Event.mnt_want_write, Event.inode_lock]) dentry = .ok w →
            (w.d_inode = none →
              (r, tr ++ evs) = ovl_workdir_create_mkdir K w
                  (tr ++ [Event.mnt_want_write, Event.inode_lock, Event.lookup_one_len])
                ∧ evs.count Event.lookup_one_len = 1
                ∧ evs.count Event.ovl_workdir_cleanup = 0
                ∧ evs.count Event.ovl_create_real = 1)
            ∧ (w.d_inode ≠ none →
              ∃ evs2, evs = [Event.mnt_want_write, Event.inode_lock, Event.lookup_one_len,
                    Event.ovl_workdir_cleanup, Event.dput, Event.lookup_one_len] ++ evs2
                ∧ Event.lookup_one_len ∉ evs2 ∧ Event.ovl_workdir_cleanup ∉ evs2
                ∧ ∀ w2, K.lookup_one_len (tr ++ [Event.mnt_want_write, Event.inode_lock,
                      Event.lookup_one_len, Event.ovl_workdir_cleanup, Event.dput]) dentry
                      = .ok w2 →
                    w2.d_inode ≠ none →
                    r = .error (-K.consts.EEXIST)
                      ∧ evs2 = [Event.dput, Event.inode_unlock, Event.mnt_drop_write])) := by
  unfold ovl_workdir_create
  by_cases hw : K.mnt_want_write tr mnt = 0
  · simp only [hw, ne_eq, not_true_eq_false, if_false, List.append_assoc, List.singleton_append,
      forall_true_left]
    rw [ovl_workdir_create_retry]
    cases h : K.lookup_one_len (tr ++ [Event.mnt_want_write, Event.inode_lock]) dentry with
    | error e =>
      refine ⟨.error e, [Event.mnt_want_write, Event.inode_lock, Event.lookup_one_len,
        Event.inode_unlock, Event.mnt_drop_write], by simp, by decide, by decide, ?_⟩
      intro w hw'
      cases hw'
    | ok w =>
      by_cases hi : w.d_inode.isSome = true
      · obtain ⟨r, evs2, he, h1, h2, h3⟩ := workdir_create_second_pass K dentry
          (tr ++ [Event.mnt_want_write, Event.inode_lock, Event.lookup_one_len,
            Event.ovl_workdir_cleanup, Event.dput])
        have hne : w.d_inode ≠ none := Option.isSome_iff_ne_none.mp hi
        refine ⟨r, [Event.mnt_want_write, Event.inode_lock, Event.lookup_one_len,
          Event.ovl_workdir_cleanup, Event.dput, Event.lookup_one_len] ++ evs2, ?_, ?_, ?_, ?_⟩
        · simp only [hi, if_true, Bool.false_eq_true, if_false, List.append_assoc,
            List.cons_append, List.nil_append]
          rw [he]
          simp
        · have := List.count_eq_zero_of_not_mem h1
          simp [List.count_cons, this]
        · have := List.count_eq_zero_of_not_mem h2
          simp [List.count_cons, this]
        · intro w' hw'
          cases hw'
          exact ⟨fun h0 => absurd h0 hne, fun _ => ⟨evs2, rfl, h1, h2, h3⟩⟩
      · have hnone : w.d_inode = none := by
          cases hd : w.d_inode with
          | none => rfl
          | some x => simp [hd] at hi
        obtain ⟨evs, he, h1, h2, h3⟩ := workdir_create_mkdir_events K w
          (tr ++ [Event.mnt_want_write, Event.inode_lock, Event.lookup_one_len])
        cases hm : ovl_workdir_create_mkdir K w
            (tr ++ [Event.mnt_want_write, Event.inode_lock, Event.lookup_one_len]) with
        | mk r t =>
          rw [hm] at he
          simp only at he
          have c1 := List.count_eq_zero_of_not_mem h1
          have c2 := List.count_eq_zero_of_not_mem h2
          have c3 := List.count_eq_zero_of_not_mem h3
          refine ⟨r, [Event.mnt_want_write, Event.inode_lock, Event.lookup_one_len,
            Event.ovl_create_real] ++ evs, ?_, ?_, ?_, ?_⟩
          · simp only [hi, Bool.false_eq_true, if_false, List.append_assoc,
              List.cons_append, List.nil_append, hm, he]
          · simp [List.count_cons, c1]
          · simp [List.count_cons, c2]
          · intro w' hw'
            cases hw'
            refine ⟨fun _ => ⟨?_, by simp [List.count_cons, c1], by simp [List.count_cons, c2],
              by simp [List.count_cons, c3]⟩, fun h0 => absurd hnone h0⟩
            rw [hm, he]
            simp
  · refine ⟨.error (K.mnt_want_write tr mnt), [Event.mnt_want_write], by simp [hw],
      by decide, by decide, fun h0 => absurd h0 hw⟩

/-! ## `ovl_fill_super` -/

theorem Step.andThen_next {α β : Type} (a : α) (f : α → Step β) :
    (Step.next a).andThen f = f a := rfl

theorem Step.andThen_ret {α β : Type} (err : Int) (st : OvlState) (f : α → Step β) :
    (Step.ret err st : Step α).andThen f = Step.ret err st := rfl

theorem Step.andThen_fault {α β : Type} (f : α → Step β) :
    (Step.fault : Step α).andThen f = Step.fault := rfl

theorem Step.andThen_eq_next {α β : Type} {x : Step α} {f : α → Step β} {b : β}
    (h : x.andThen f = Step.next b) : ∃ a, x = Step.next a ∧ f a = Step.next b := by
  cases x with
  | next a => exact ⟨a, rfl, h⟩
  | ret err st => cases h
  | fault => cases h

theorem config_next {K : Kernel} {s_flags : Nat} {data : List Nat} {silent : Int}
    {st : OvlState} (h : ovl_fill_super_config K s_flags data silent = Step.next st) :
    st.stack = [] ∧ st.remote = false ∧ st.upperpath = none ∧ st.workpath = none
      ∧ st.config.lowerdir ≠ none ∧ st.upper_mnt = none ∧ st.workdir = none
      ∧ st.s_flags = s_flags := by
  unfold ovl_fill_super_config at h
  simp only at h
  repeat' split at h
  all_goals cases h
  all_goals simp_all

theorem mount_dir_ok_not_remote {K : Kernel} {tr tr1 : List Event} {name : List Nat}
    {p : Path} (h : ovl_mount_dir K tr name = some (.ok p, tr1)) :
    p.dentry.remote = false := by
  unfold ovl_mount_dir at h
  repeat' split at h
  all_goals cases h
  all_goals simp_all

theorem upper_paths_next {K : Kernel} {st st1 : OvlState}
    (h : ovl_fill_super_upper_paths K st = Step.next st1) :
    st1.stack = st.stack ∧ st1.remote = st.remote ∧ st1.config = st.config
      ∧ st1.s_stack_depth = 0 ∧ st1.s_flags = st.s_flags
      ∧ st1.upper_mnt = st.upper_mnt ∧ st1.workdir = st.workdir
      ∧ (st.config.upperdir = none →
          st1.upperpath = st.upperpath ∧ st1.workpath = st.workpath)
      ∧ (st.config.upperdir ≠ none →
          ∃ up wp, st1.upperpath = some up ∧ st1.workpath = some wp
            ∧ up.dentry.remote = false ∧ wp.dentry.remote = false) := by
  unfold ovl_fill_super_upper_paths at h
  simp only at h
  repeat' split at h
  all_goals cases h
  all_goals simp_all
  exact ⟨mount_dir_ok_not_remote (by assumption), mount_dir_ok_not_remote (by assumption)⟩

theorem upper_checks_next {K : Kernel} {st st1 : OvlState}
    (h : ovl_fill_super_upper_checks K st = Step.next st1) :
    st1.stack = st.stack ∧ st1.remote = st.remote ∧ st1.config = st.config
      ∧ st1.upperpath = st.upperpath ∧ st1.workpath = st.workpath
      ∧ st1.s_flags = st.s_flags ∧ st1.upper_mnt = st.upper_mnt ∧ st1.workdir = st.workdir
      ∧ (st.config.upperdir = none → st1.s_stack_depth = st.s_stack_depth)
      ∧ (st.config.upperdir ≠ none →
          ∃ up, st.upperpath = some up ∧ st1.s_stack_depth = up.mnt.mnt_sb.s_stack_depth) := by
  unfold ovl_fill_super_upper_checks at h
  simp only at h
  repeat' split at h
  all_goals cases h
  all_goals simp_all

theorem split_next {K : Kernel} {st st1 : OvlState}
    (h : ovl_fill_super_split K st = Step.next st1) :
    st1.stack = st.stack ∧ st1.remote = st.remote ∧ st1.config = st.config
      ∧ st1.upperpath = st.upperpath ∧ st1.workpath = st.workpath
      ∧ st1.s_flags = st.s_flags ∧ st1.upper_mnt = st.upper_mnt ∧ st1.workdir = st.workdir
      ∧ st1.s_stack_depth = st.s_stack_depth := by
  unfold ovl_fill_super_split at h
  simp only at h
  repeat' split at h
  all_goals cases h
  all_goals simp_all

theorem depth_next {K : Kernel} {st st1 : OvlState}
    (h : ovl_fill_super_depth K st = Step.next st1) :
    st1.stack = st.stack ∧ st1.remote = st.remote ∧ st1.config = st.config
      ∧ st1.upperpath = st.upperpath ∧ st1.workpath = st.workpath
      ∧ st1.s_flags = st.s_flags ∧ st1.upper_mnt = st.upper_mnt ∧ st1.workdir = st.workdir
      ∧ st1.s_stack_depth = int_wrap (st.s_stack_depth + 1) := by
  unfold ovl_fill_super_depth at h
  simp only at h
  repeat' split at h
  all_goals cases h
  all_goals simp_all

theorem workdir_next {K : Kernel} {st st1 : OvlState}
    (h : ovl_fill_super_workdir K st = Step.next st1) :
    st1.stack = st.stack ∧ st1.remote = st.remote ∧ st1.config = st.config
      ∧ st1.upperpath = st.upperpath ∧ st1.workpath = st.workpath
      ∧ st1.s_stack_depth = st.s_stack_depth := by
  unfold ovl_fill_super_workdir at h
  simp only at h
  repeat' split at h
  all_goals cases h
  all_goals simp_all

theorem lower_dir_ok {K : Kernel} {tr tr1 : List Event} {name : List Nat} {namelen depth : Int}
    {remote : Bool} {r : LowerDir}
    (h : ovl_lower_dir K tr name namelen depth remote = (.ok r, tr1)) :
    r.stack_depth = max depth r.path.mnt.mnt_sb.s_stack_depth
      ∧ r.remote = (remote || r.path.dentry.remote) := by
  unfold ovl_lower_dir at h
  repeat' split at h
  all_goals cases h
  all_goals simp_all

theorem lowers_loop_next {K : Kernel} (n : Nat) :
    ∀ {lower : Nat} {st st1 : OvlState},
      ovl_fill_super_lowers_loop K n lower st = Step.next st1 →
      ∃ new, st1.stack = st.stack ++ new ∧ new.length = n
        ∧ st1.s_stack_depth
            = (new.map (fun p => p.mnt.mnt_sb.s_stack_depth)).foldl max st.s_stack_depth
        ∧ st1.remote = (st.remote || new.any (fun p => p.dentry.remote))
        ∧ st1.config = st.config ∧ st1.upperpath = st.upperpath
        ∧ st1.workpath = st.workpath ∧ st1.s_flags = st.s_flags
        ∧ st1.upper_mnt = st.upper_mnt ∧ st1.workdir = st.workdir := by
  induction n with
  | zero =>
    intro lower st st1 h
    rw [ovl_fill_super_lowers_loop] at h
    cases h
    exact ⟨[], by simp⟩
  | succ n ih =>
    intro lower st st1 h
    rw [ovl_fill_super_lowers_loop] at h
    split at h
    · cases h
    · rename_i r tr hl
      simp only at h
      split at h
      · cases h
      · obtain ⟨new, h1, h2, h3, h4, h5⟩ := ih h
        obtain ⟨hd, hr⟩ := lower_dir_ok hl
        refine ⟨r.path :: new, ?_, ?_, ?_, ?_, ?_⟩
        · simpa using h1
        · simp [h2]
        · simp only [h3, hd, List.map_cons, List.foldl_cons]
        · simp only [h4, hr, List.any_cons, Bool.or_assoc]
        · simpa using h5

theorem clone_lowers_next {K : Kernel} (ps : List Path) :
    ∀ {err : Int} {st : OvlState} {r : Int × OvlState},
      ovl_fill_super_clone_lowers K ps err st = Step.next r →
      r.2.stack = st.stack ∧ r.2.remote = st.remote ∧ r.2.config = st.config
        ∧ r.2.upperpath = st.upperpath ∧ r.2.workpath = st.workpath
        ∧ r.2.s_flags = st.s_flags ∧ r.2.upper_mnt = st.upper_mnt
        ∧ r.2.workdir = st.workdir ∧ r.2.s_stack_depth = st.s_stack_depth
        ∧ r.2.tmpfile = st.tmpfile := by
  induction ps with
  | nil =>
    intro err st r h
    rw [ovl_fill_super_clone_lowers] at h
    cases h
    simp
  | cons p ps ih =>
    intro err st r h
    rw [ovl_fill_super_clone_lowers] at h
    split at h
    · cases h
    · have := ih h
      simpa using this

theorem finish_next {K : Kernel} {st st1 : OvlState}
    (h : ovl_fill_super_finish K st = Step.next st1) :
    st1.stack = st.stack ∧ st1.remote = st.remote ∧ st1.config = st.config
      ∧ st1.upperpath = st.upperpath ∧ st1.workpath = st.workpath
      ∧ st1.upper_mnt = st.upper_mnt
      ∧ st1.workdir = st.workdir ∧ st1.s_stack_depth = st.s_stack_depth
      ∧ st1.tmpfile = st.tmpfile
      ∧ st1.s_flags = (if st.upper_mnt.isNone then st.s_flags ||| K.consts.MS_RDONLY
            else st.s_flags) ||| (K.consts.MS_POSIXACL ||| K.consts.MS_NOREMOTELOCK)
      ∧ st1.s_d_op = some (if st.remote then DentryOps.ovl_reval_dentry_operations
            else DentryOps.ovl_dentry_operations) := by
  unfold ovl_fill_super_finish at h
  split at h
  · obtain ⟨r, hr, h⟩ := Step.andThen_eq_next h
    have hf := clone_lowers_next _ hr
    simp only at h
    repeat' split at h
    all_goals cases h
    all_goals simp_all
  · cases h

theorem to_checks_next {K : Kernel} {s_flags : Nat} {data : List Nat} {silent : Int}
    {st : OvlState} (h : ovl_fill_super_to_checks K s_flags data silent = Step.next st) :
    st.stack = [] ∧ st.remote = false ∧ st.s_stack_depth = 0
      ∧ st.config.lowerdir ≠ none ∧ st.upper_mnt = none ∧ st.workdir = none
      ∧ st.s_flags = s_flags
      ∧ (st.config.upperdir = none → st.upperpath = none ∧ st.workpath = none)
      ∧ (st.config.upperdir ≠ none →
          ∃ up wp, st.upperpath = some up ∧ st.workpath = some wp
            ∧ up.dentry.remote = false ∧ wp.dentry.remote = false) := by
  obtain ⟨s0, h0, h1⟩ := Step.andThen_eq_next h
  obtain ⟨a1, a2, a3, a4, a5, a6, a7, a8⟩ := config_next h0
  obtain ⟨b1, b2, b3, b4, b5, b6, b7, b8, b9⟩ := upper_paths_next h1
  refine ⟨by rw [b1, a1], by rw [b2, a2], b4, by rw [b3]; exact a5, by rw [b6, a6],
    by rw [b7, a7], by rw [b5, a8], ?_, ?_⟩
  · intro hu
    have := b8 (by rw [← b3]; exact hu)
    exact ⟨by rw [this.1, a3], by rw [this.2, a4]⟩
  · intro hu
    exact b9 (by rw [← b3]; exact hu)

theorem to_split_next {K : Kernel} {s_flags : Nat} {data : List Nat} {silent : Int}
    {st : OvlState} (h : ovl_fill_super_to_split K s_flags data silent = Step.next st) :
    st.stack = [] ∧ st.remote = false
      ∧ st.config.lowerdir ≠ none ∧ st.upper_mnt = none ∧ st.workdir = none
      ∧ st.s_flags = s_flags
      ∧ (st.config.upperdir = none →
          st.upperpath = none ∧ st.workpath = none ∧ st.s_stack_depth = 0)
      ∧ (st.config.upperdir ≠ none →
          ∃ up wp, st.upperpath = some up ∧ st.workpath = some wp
            ∧ up.dentry.remote = false ∧ wp.dentry.remote = false
            ∧ st.s_stack_depth = up.mnt.mnt_sb.s_stack_depth) := by
  obtain ⟨s0, h0, h1⟩ := Step.andThen_eq_next h
  obtain ⟨a1, a2, a3, a4, a5, a6, a7, a8, a9⟩ := to_checks_next h0
  obtain ⟨b1, b2, b3, b4, b5, b6, b7, b8, b9, b10⟩ := upper_checks_next h1
  refine ⟨by rw [b1, a1], by rw [b2, a2], by rw [b3]; exact a4, by rw [b7, a5],
    by rw [b8, a6], by rw [b6, a7], ?_, ?_⟩
  · intro hu
    have hu0 : s0.config.upperdir = none := by rw [← b3]; exact hu
    have := a8 hu0
    exact ⟨by rw [b4, this.1], by rw [b5, this.2], by rw [b9 hu0, a3]⟩
  · intro hu
    have hu0 : s0.config.upperdir ≠ none := by rw [← b3]; exact hu
    obtain ⟨up, wp, c1, c2, c3, c4⟩ := a9 hu0
    obtain ⟨up', d1, d2⟩ := b10 hu0
    rw [c1] at d1
    cases d1
    exact ⟨up, wp, by rw [b4, c1], by rw [b5, c2], c3, c4, d2⟩

/-- C2. The layer-count check of `ovl_fill_super`.  When the options are parsed
and `lowerdir` is absent the mount fails with `-EINVAL` right after
`ovl_parse_opt`.  When the code reaches the split of `lowerdir` and
`ovl_split_lowerdirs` returns `n`: if `n > 500`, or if `n = 1` and no `upperdir`
is configured, the mount fails with `-EINVAL` after `kstrdup` and the message
only, with no lower path validated; for every `n` from 2 to 500 (500 included),
and for `n = 1` with an `upperdir`, the check passes and the code goes on to
allocate the stack. -/
theorem ovl_fill_super_layer_count (K : Kernel) (s_flags : Nat) (data : List Nat)
    (silent : Int) :
    (∀ cfg, K.kmalloc [] = true → K.ovl_parse_opt [Event.kzalloc] data = (0, cfg) →
        cfg.lowerdir = none →
        ∃ st, ovl_fill_super K s_flags data silent = Step.ret (-K.consts.EINVAL) st
          ∧ st.stack = []
          ∧ st.trace = [Event.kzalloc, Event.ovl_parse_opt]
              ++ (if silent = 0 then [Event.pr_err Msg.missing_lowerdir] else []))
    ∧ (∀ st lowerdir n buf,
        ovl_fill_super_to_split K s_flags data silent = Step.next st →
        st.config.lowerdir = some lowerdir → K.kmalloc st.trace = true →
        ovl_split_lowerdirs (kstrdup lowerdir) = some (n, buf) →
        st.stack = []
        ∧ (500 < n →
            ovl_fill_super K s_flags data silent = Step.ret (-K.consts.EINVAL)
              { st with trace := st.trace ++ [Event.kstrdup, Event.pr_err Msg.too_many_lower]
                        lowertmp := buf, stacklen := n })
        ∧ (n = 1 → st.config.upperdir = none →
            ovl_fill_super K s_flags data silent = Step.ret (-K.consts.EINVAL)
              { st with trace := st.trace ++ [Event.kstrdup, Event.pr_err Msg.need_two_lowerdir]
                        lowertmp := buf, stacklen := n })
        ∧ ((2 ≤ n ∧ n ≤ 500) ∨ (n = 1 ∧ st.config.upperdir ≠ none) →
            ovl_fill_super_split K st = Step.next
              { st with trace := st.trace ++ [Event.kstrdup], lowertmp := buf, stacklen := n }
            ∧ ovl_fill_super K s_flags data silent =
                ((((ovl_fill_super_lowers K
                  { st with trace := st.trace ++ [Event.kstrdup]
                            lowertmp := buf, stacklen := n }).andThen
                  (ovl_fill_super_depth K)).andThen
                  (ovl_fill_super_workdir K)).andThen (ovl_fill_super_finish K)))) := by
  constructor
  · intro cfg hk hp hl
    have hc : ovl_fill_super_config K s_flags data silent = Step.ret (-K.consts.EINVAL)
        { trace := [Event.kzalloc, Event.ovl_parse_opt]
            ++ (if silent = 0 then [Event.pr_err Msg.missing_lowerdir] else [])
          config := cfg, s_flags := s_flags, s_stack_depth := 0, s_d_op := none, namelen := 0
          upperpath := none, workpath := none, lowertmp := [], stacklen := 0, stack := []
          remote := false, upper_mnt := none, workdir := none, tmpfile := false
          lower_mnt := [] } := by
      unfold ovl_fill_super_config
      simp [hk, hp, hl]
    have hfull : ovl_fill_super K s_flags data silent
        = ovl_fill_super_config K s_flags data silent := by
      simp only [ovl_fill_super, ovl_fill_super_to_workdir, ovl_fill_super_to_depth,
        ovl_fill_super_to_split, ovl_fill_super_to_checks, hc, Step.andThen_ret]
    exact ⟨_, hfull.trans hc, rfl, rfl⟩
  · intro st lowerdir n buf hpre hl hk hs
    have hstack := (to_split_next hpre).1
    have hfull : ovl_fill_super K s_flags data silent =
        ((((ovl_fill_super_split K st).andThen (ovl_fill_super_lowers K)).andThen
          (ovl_fill_super_depth K)).andThen (ovl_fill_super_workdir K)).andThen
          (ovl_fill_super_finish K) := by
      simp only [ovl_fill_super, ovl_fill_super_to_workdir, ovl_fill_super_to_depth, hpre,
        Step.andThen_next]
    refine ⟨hstack, ?_, ?_, ?_⟩
    · intro hn
      have : ovl_fill_super_split K st = Step.ret (-K.consts.EINVAL)
          { st with trace := st.trace ++ [Event.kstrdup, Event.pr_err Msg.too_many_lower]
                    lowertmp := buf, stacklen := n } := by
        unfold ovl_fill_super_split
        simp [hl, hk, hs, OVL_MAX_STACK, hn]
      rw [hfull, this]
      rfl
    · intro hn hu
      have : ovl_fill_super_split K st = Step.ret (-K.consts.EINVAL)
          { st with trace := st.trace ++ [Event.kstrdup, Event.pr_err Msg.need_two_lowerdir]
                    lowertmp := buf, stacklen := n } := by
        unfold ovl_fill_super_split
        simp [hl, hk, hs, OVL_MAX_STACK, hn, hu]
      rw [hfull, this]
      rfl
    · intro hn
      have : ovl_fill_super_split K st = Step.next
          { st with trace := st.trace ++ [Event.kstrdup], lowertmp := buf, stacklen := n } := by
        unfold ovl_fill_super_split
        rcases hn with ⟨h2, h500⟩ | ⟨h1, hu⟩
        · have h1 : ¬ (n = 1) := by omega
          simp [hl, hk, hs, OVL_MAX_STACK, not_lt.mpr h500, h1]
        · cases hud : st.config.upperdir with
          | none => exact absurd hud hu
          | some u => simp [hl, hk, hs, OVL_MAX_STACK, h1, hud]
      refine ⟨this, ?_⟩
      rw [hfull, this]
      rfl

theorem lowers_next {K : Kernel} {st st1 : OvlState}
    (h : ovl_fill_super_lowers K st = Step.next st1) :
    ∃ new, st1.stack = st.stack ++ new ∧ new.length = st.stacklen
      ∧ st1.s_stack_depth
          = (new.map (fun p => p.mnt.mnt_sb.s_stack_depth)).foldl max st.s_stack_depth
      ∧ st1.remote = (st.remote || new.any (fun p => p.dentry.remote))
      ∧ st1.config = st.config ∧ st1.upperpath = st.upperpath
      ∧ st1.workpath = st.workpath ∧ st1.s_flags = st.s_flags
      ∧ st1.upper_mnt = st.upper_mnt ∧ st1.workdir = st.workdir := by
  unfold ovl_fill_super_lowers at h
  split at h
  · have := lowers_loop_next _ h
    simpa using this
  · cases h

/-- What holds when the code reaches the depth check (super.c:816). -/
theorem to_depth_next {K : Kernel} {s_flags : Nat} {data : List Nat} {silent : Int}
    {st : OvlState} (h : ovl_fill_super_to_depth K s_flags data silent = Step.next st) :
    st.s_stack_depth
        = (st.stack.map (fun p => p.mnt.mnt_sb.s_stack_depth)).foldl max
            (match st.upperpath with
              | some up => up.mnt.mnt_sb.s_stack_depth
              | none => 0)
      ∧ st.remote = st.stack.any (fun p => p.dentry.remote)
      ∧ (st.upperpath = none ↔ st.config.upperdir = none)
      ∧ (∀ p, st.upperpath = some p → p.dentry.remote = false)
      ∧ (∀ p, st.workpath = some p → p.dentry.remote = false)
      ∧ st.upper_mnt = none ∧ st.workdir = none ∧ st.s_flags = s_flags := by
  obtain ⟨s2, h2, hl⟩ := Step.andThen_eq_next h
  obtain ⟨s1, h1, hs⟩ := Step.andThen_eq_next h2
  obtain ⟨a1, a2, a3, a4, a5, a6, a7, a8⟩ := to_split_next h1
  obtain ⟨b1, b2, b3, b4, b5, b6, b7, b8, b9⟩ := split_next hs
  obtain ⟨new, c1, c2, c3, c4, c5, c6, c7, c8, c9, c10⟩ := lowers_next hl
  have hstack : st.stack = new := by rw [c1, b1, a1, List.nil_append]
  have hcfg : st.config = s1.config := by rw [c5, b3]
  have hup : st.upperpath = s1.upperpath := by rw [c6, b4]
  have hwp : st.workpath = s1.workpath := by rw [c7, b5]
  have hrem : st.remote = st.stack.any (fun p => p.dentry.remote) := by
    rw [c4, b2, a2, hstack, Bool.false_or]
  have hrest : st.upper_mnt = none ∧ st.workdir = none ∧ st.s_flags = s_flags :=
    ⟨by rw [c9, b7, a4], by rw [c10, b8, a5], by rw [c8, b6, a6]⟩
  rw [hstack, hcfg, hup, hwp, c3, b9]
  rw [hstack] at hrem
  cases hu : s1.config.upperdir with
  | none =>
    obtain ⟨d1, d2, d3⟩ := a7 hu
    rw [d1, d2, d3]
    exact ⟨rfl, hrem, by simp, by simp, by simp, hrest⟩
  | some u =>
    obtain ⟨up, wp, d1, d2, d3, d4, d5⟩ := a8 (by rw [hu]; simp)
    rw [d1, d2, d5]
    refine ⟨rfl, hrem, by simp, ?_, ?_, hrest⟩
    · intro p hp
      cases hp
      exact d3
    · intro p hp
      cases hp
      exact d4

theorem int_wrap_of_fits (x : Int) (h1 : -2 ^ 31 ≤ x) (h2 : x < 2 ^ 31) : int_wrap x = x := by
  unfold int_wrap
  norm_num at h1 h2 ⊢
  omega

/-- C3. When `ovl_fill_super` reaches the depth check with the upper path
`st.upperpath` (absent when no `upperdir` is configured) and the validated lower
paths `st.stack`, and 1 + the maximum of the upper filesystem's depth (0 without
upper) and the depths of all lower filesystems fits the `int` that holds it,
that sum is the depth assigned to the new super block.  The mount is rejected
there with `-EINVAL` exactly when the sum is greater than
`FILESYSTEM_MAX_STACK_DEPTH`; at the limit the check passes, and a mount that
succeeds keeps that depth. -/
theorem ovl_fill_super_stack_depth (K : Kernel) (s_flags : Nat) (data : List Nat)
    (silent : Int) (st : OvlState)
    (hpre : ovl_fill_super_to_depth K s_flags data silent = Step.next st)
    (hfit : -2 ^ 31 ≤ 1 + (st.stack.map (fun p => p.mnt.mnt_sb.s_stack_depth)).foldl max
              (match st.upperpath with
                | some up => up.mnt.mnt_sb.s_stack_depth
                | none => 0)
          ∧ 1 + (st.stack.map (fun p => p.mnt.mnt_sb.s_stack_depth)).foldl max
              (match st.upperpath with
                | some up => up.mnt.mnt_sb.s_stack_depth
                | none => 0) < 2 ^ 31) :
    (st.upperpath = none ↔ st.config.upperdir = none)
    ∧ (1 + (st.stack.map (fun p => p.mnt.mnt_sb.s_stack_depth)).foldl max
              (match st.upperpath with
                | some up => up.mnt.mnt_sb.s_stack_depth
                | none => 0) > K.consts.FILESYSTEM_MAX_STACK_DEPTH →
        ovl_fill_super K s_flags data silent = Step.ret (-K.consts.EINVAL)
          { st with
            s_stack_depth :=
              1 + (st.stack.map (fun p => p.mnt.mnt_sb.s_stack_depth)).foldl max
                (match st.upperpath with
                  | some up => up.mnt.mnt_sb.s_stack_depth
                  | none => 0)
            trace := st.trace ++ [Event.pr_err Msg.max_depth_exceeded] })
    ∧ (1 + (st.stack.map (fun p => p.mnt.mnt_sb.s_stack_depth)).foldl max
              (match st.upperpath with
                | some up => up.mnt.mnt_sb.s_stack_depth
                | none => 0) ≤ K.consts.FILESYSTEM_MAX_STACK_DEPTH →
        ovl_fill_super_depth K st = Step.next
          { st with
            s_stack_depth :=
              1 + (st.stack.map (fun p => p.mnt.mnt_sb.s_stack_depth)).foldl max
                (match st.upperpath with
                  | some up => up.mnt.mnt_sb.s_stack_depth
                  | none => 0) }
        ∧ ∀ st1, ovl_fill_super K s_flags data silent = Step.next st1 →
            st1.s_stack_depth =
              1 + (st.stack.map (fun p => p.mnt.mnt_sb.s_stack_depth)).foldl max
                (match st.upperpath with
                  | some up => up.mnt.mnt_sb.s_stack_depth
                  | none => 0)) := by
  obtain ⟨hd, _, hu, _⟩ := to_depth_next hpre
  have hfull : ovl_fill_super K s_flags data silent =
      ((ovl_fill_super_depth K st).andThen (ovl_fill_super_workdir K)).andThen
        (ovl_fill_super_finish K) := by
    simp only [ovl_fill_super, ovl_fill_super_to_workdir, hpre, Step.andThen_next]
  rw [← hd] at hfit ⊢
  have hwrap : int_wrap (st.s_stack_depth + 1) = 1 + st.s_stack_depth := by
    rw [int_wrap_of_fits _ (by omega) (by omega)]
    omega
  refine ⟨hu, ?_, ?_⟩
  · intro hgt
    have : ovl_fill_super_depth K st = Step.ret (-K.consts.EINVAL)
        { st with s_stack_depth := 1 + st.s_stack_depth
                  trace := st.trace ++ [Event.pr_err Msg.max_depth_exceeded] } := by
      unfold ovl_fill_super_depth
      simp only [hwrap, hgt, if_true]
    rw [hfull, this]
    rfl
  · intro hle
    have hdep : ovl_fill_super_depth K st = Step.next
        { st with s_stack_depth := 1 + st.s_stack_depth } := by
      unfold ovl_fill_super_depth
      have hle' : ¬ (1 + st.s_stack_depth > K.consts.FILESYSTEM_MAX_STACK_DEPTH) := by omega
      simp only [hwrap, hle', if_false]
    refine ⟨hdep, ?_⟩
    intro st1 h1
    rw [hfull, hdep] at h1
    obtain ⟨s6, h6, h7⟩ := Step.andThen_eq_next h1
    have w := workdir_next h6
    have f := finish_next h7
    rw [f.2.2.2.2.2.2.2.1, w.2.2.2.2.2]

/-- C9. `ovl_workdir_ok` returns false when the two dentries are the same and,
if `lock_rename` returns a non-`NULL` trap exactly when one of its arguments is
an ancestor of the other (`anc`), also when either is an ancestor of the other;
it returns true in every other case.  Whenever it returns false on the resolved
work and upper directories, `ovl_fill_super` returns `-EINVAL`. -/
theorem ovl_workdir_ok_separate_subtrees (K : Kernel) :
    (∀ (anc : Dentry → Dentry → Prop) (tr : List Event) (workdir upperdir : Dentry),
        ((K.lock_rename tr workdir upperdir).isSome = true
          ↔ (anc workdir upperdir ∨ anc upperdir workdir)) →
        ((ovl_workdir_ok K tr workdir upperdir).1 = false
          ↔ (workdir.id = upperdir.id ∨ anc workdir upperdir ∨ anc upperdir workdir)))
    ∧ (∀ (s_flags : Nat) (data : List Nat) (silent : Int) (st : OvlState) (up wp : Path),
        ovl_fill_super_to_checks K s_flags data silent = Step.next st →
        st.config.upperdir ≠ none → st.upperpath = some up → st.workpath = some wp →
        (ovl_workdir_ok K st.trace wp.dentry up.dentry).1 = false →
        ∃ st1, ovl_fill_super K s_flags data silent = Step.ret (-K.consts.EINVAL) st1
          ∧ st1.stack = []) := by
  constructor
  · intro anc tr w u hlock
    unfold ovl_workdir_ok
    by_cases hid : w.id = u.id
    · simp [hid]
    · simp only [ne_eq, hid, not_false_eq_true, if_true, false_or]
      rw [← hlock]
      cases K.lock_rename tr w u <;> simp
  · intro s_flags data silent st up wp hpre hu hup hwp hok
    have hstack := (to_checks_next hpre).1
    have hfull : ovl_fill_super K s_flags data silent =
        (((((ovl_fill_super_upper_checks K st).andThen (ovl_fill_super_split K)).andThen
          (ovl_fill_super_lowers K)).andThen (ovl_fill_super_depth K)).andThen
          (ovl_fill_super_workdir K)).andThen (ovl_fill_super_finish K) := by
      simp only [ovl_fill_super, ovl_fill_super_to_workdir, ovl_fill_super_to_depth,
        ovl_fill_super_to_split, hpre, Step.andThen_next]
    cases hud : st.config.upperdir with
    | none => exact absurd hud hu
    | some u =>
      by_cases hm : up.mnt.id = wp.mnt.id
      · have : ovl_fill_super_upper_checks K st = Step.ret (-K.consts.EINVAL)
            { st with trace := (ovl_workdir_ok K st.trace wp.dentry up.dentry).2
                        ++ [Event.pr_err Msg.not_separate_subtrees] } := by
          unfold ovl_fill_super_upper_checks
          simp [hud, hup, hwp, hm, hok]
        rw [hfull, this]
        exact ⟨_, rfl, hstack⟩
      · have : ovl_fill_super_upper_checks K st = Step.ret (-K.consts.EINVAL)
            { st with trace := st.trace ++ [Event.pr_err Msg.not_same_mount] } := by
          unfold ovl_fill_super_upper_checks
          simp [hud, hup, hwp, hm]
        rw [hfull, this]
        exact ⟨_, rfl, hstack⟩

theorem fill_super_next {K : Kernel} {s_flags : Nat} {data : List Nat} {silent : Int}
    {st : OvlState} (h : ovl_fill_super K s_flags data silent = Step.next st) :
    ∃ s5, ovl_fill_super_to_depth K s_flags data silent = Step.next s5
      ∧ st.stack = s5.stack ∧ st.upperpath = s5.upperpath ∧ st.workpath = s5.workpath
      ∧ st.s_d_op = some (if s5.remote then DentryOps.ovl_reval_dentry_operations
            else DentryOps.ovl_dentry_operations) := by
  obtain ⟨s7, h7, hf⟩ := Step.andThen_eq_next h
  obtain ⟨s6, h6, hw⟩ := Step.andThen_eq_next h7
  obtain ⟨s5, h5, hd⟩ := Step.andThen_eq_next h6
  have d := depth_next hd
  have w := workdir_next hw
  have f := finish_next hf
  refine ⟨s5, h5, ?_, ?_, ?_, ?_⟩
  · rw [f.1, w.1, d.1]
  · rw [f.2.2.2.1, w.2.2.2.1, d.2.2.2.1]
  · rw [f.2.2.2.2.1, w.2.2.2.2.1, d.2.2.2.2.1]
  · rw [f.2.2.2.2.2.2.2.2.2.2, w.2.1, d.2.1]

/-- C10. A mount that succeeds installs `ovl_reval_dentry_operations` when at
least one of its lower layers is remote and `ovl_dentry_operations` otherwise,
and neither its upper nor its work directory is remote: `ovl_mount_dir` returns
`-EINVAL` for a directory that passes `ovl_mount_dir_noesc` and is remote, while
`ovl_lower_dir` accepts such a directory and sets `*remote`. -/
theorem ovl_fill_super_dentry_ops (K : Kernel) :
    (∀ (s_flags : Nat) (data : List Nat) (silent : Int) (st : OvlState),
        ovl_fill_super K s_flags data silent = Step.next st →
        st.s_d_op = some (if st.stack.any (fun p => p.dentry.remote)
            then DentryOps.ovl_reval_dentry_operations
            else DentryOps.ovl_dentry_operations)
          ∧ (∀ p, st.upperpath = some p → p.dentry.remote = false)
          ∧ (∀ p, st.workpath = some p → p.dentry.remote = false))
    ∧ (∀ (tr tr1 : List Event) (name tmp : List Nat) (p : Path),
        K.kmalloc tr = true → ovl_unescape (kstrdup name) = some tmp →
        ovl_mount_dir_noesc K (tr ++ [Event.kstrdup]) (cstr_at tmp 0) = (.ok p, tr1) →
        p.dentry.remote = true →
        ovl_mount_dir K tr name = some (.error (-K.consts.EINVAL),
          tr1 ++ [Event.pr_err Msg.not_supported_as_upperdir, Event.path_put]))
    ∧ (∀ (tr tr1 tr2 : List Event) (name : List Nat) (namelen n depth : Int) (remote : Bool)
        (p : Path),
        ovl_mount_dir_noesc K tr name = (.ok p, tr1) →
        ovl_check_namelen K tr1 p namelen = (.ok n, tr2) →
        p.dentry.remote = true →
        ovl_lower_dir K tr name namelen depth remote
          = (.ok { path := p, namelen := n
                   stack_depth := max depth p.mnt.mnt_sb.s_stack_depth
                   remote := true }, tr2)) := by
  refine ⟨?_, ?_, ?_⟩
  · intro s_flags data silent st h
    obtain ⟨s5, h5, e1, e2, e3, e4⟩ := fill_super_next h
    obtain ⟨_, hr, _, hu, hw, _⟩ := to_depth_next h5
    rw [e1, e2, e3, e4, hr]
    exact ⟨rfl, hu, hw⟩
  · intro tr tr1 name tmp p hk hu hn hr
    unfold ovl_mount_dir
    simp [hk, hu, hn, hr]
  · intro tr tr1 tr2 name namelen n depth remote p hn hc hr
    unfold ovl_lower_dir
    simp [hn, hc, hr]

theorem or_or_and_self (x r q : Nat) : ((x ||| r) ||| q) &&& r = r := by
  apply Nat.eq_of_testBit_eq
  intro i
  simp only [Nat.testBit_and, Nat.testBit_or]
  cases x.testBit i <;> cases r.testBit i <;> cases q.testBit i <;> rfl

theorem clone_lowers_ok {K : Kernel}
    (hclone : ∀ tr p, ∃ m, K.clone_private_mount tr p = .ok m) (ps : List Path) :
    ∀ (err : Int) (st : OvlState),
      ∃ r evs, ovl_fill_super_clone_lowers K ps err st = Step.next r
        ∧ r.2.trace = st.trace ++ evs ∧ ∀ e ∈ evs, e = Event.clone_private_mount := by
  induction ps with
  | nil =>
    intro err st
    exact ⟨(err, st), [], rfl, by simp, by simp⟩
  | cons p ps ih =>
    intro err st
    obtain ⟨m, hm⟩ := hclone st.trace p
    obtain ⟨r, evs, h1, h2, h3⟩ := ih (ptr_err_int m.id)
      { st with trace := st.trace ++ [Event.clone_private_mount]
                lower_mnt := st.lower_mnt ++ [m] }
    refine ⟨r, Event.clone_private_mount :: evs, ?_, ?_, ?_⟩
    · rw [ovl_fill_super_clone_lowers, hm]
      exact h1
    · rw [h2]
      simp
    · intro e he
      rcases List.mem_cons.mp he with rfl | he
      · rfl
      · exact h3 e he

theorem finish_ok {K : Kernel} (st : OvlState)
    (hmem : ∀ tr, K.kmalloc tr = true)
    (hclone : ∀ tr p, ∃ m, K.clone_private_mount tr p = .ok m)
    (hcred : ∀ tr, K.prepare_creds tr = true)
    (hentry : ∀ tr, K.ovl_alloc_entry tr = true)
    (hroot : ∀ tr, K.d_make_root tr = true) :
    ∃ st1 evs, ovl_fill_super_finish K st = Step.next st1
      ∧ st1.trace = st.trace ++ evs
      ∧ Event.ovl_check_d_type_supported ∉ evs ∧ Event.ovl_do_tmpfile ∉ evs := by
  obtain ⟨r, evs, h1, h2, h3⟩ := clone_lowers_ok hclone st.stack (-K.consts.ENOMEM)
    { st with trace := st.trace ++ [Event.kcalloc] }
  unfold ovl_fill_super_finish
  rw [if_pos (hmem _), h1]
  simp only [Step.andThen_next, hcred, hentry, hroot, if_true]
  refine ⟨_, [Event.kcalloc] ++ evs ++ [Event.prepare_creds, Event.ovl_alloc_entry,
    Event.d_make_root], rfl, ?_, ?_, ?_⟩
  · split <;> simp [h2]
  · intro hin
    simp only [List.mem_append, List.mem_cons, List.mem_singleton, List.not_mem_nil,
      or_false, reduceCtorEq, false_or] at hin
    exact absurd (h3 _ hin) (by decide)
  · intro hin
    simp only [List.mem_append, List.mem_cons, List.mem_singleton, List.not_mem_nil,
      or_false, reduceCtorEq, false_or] at hin
    exact absurd (h3 _ hin) (by decide)

theorem lowers_loop_tmpfile {K : Kernel} (n : Nat) :
    ∀ {lower : Nat} {st st1 : OvlState},
      ovl_fill_super_lowers_loop K n lower st = Step.next st1 → st1.tmpfile = st.tmpfile := by
  induction n with
  | zero =>
    intro lower st st1 h
    rw [ovl_fill_super_lowers_loop] at h
    cases h
    rfl
  | succ n ih =>
    intro lower st st1 h
    rw [ovl_fill_super_lowers_loop] at h
    split at h
    · cases h
    · simp only at h
      split at h
      · cases h
      · exact (ih h).trans rfl

theorem to_workdir_tmpfile {K : Kernel} {s_flags : Nat} {data : List Nat} {silent : Int}
    {st : OvlState} (h : ovl_fill_super_to_workdir K s_flags data silent = Step.next st) :
    st.tmpfile = false := by
  obtain ⟨s5, h5, hd⟩ := Step.andThen_eq_next h
  obtain ⟨s4, h4, hl⟩ := Step.andThen_eq_next h5
  obtain ⟨s3, h3, hs⟩ := Step.andThen_eq_next h4
  obtain ⟨s2, h2, hc⟩ := Step.andThen_eq_next h3
  obtain ⟨s1, h1, hp⟩ := Step.andThen_eq_next h2
  have e1 : s1.tmpfile = false := by
    unfold ovl_fill_super_config at h1
    simp only at h1
    repeat' split at h1
    all_goals cases h1
    all_goals rfl
  have e2 : s2.tmpfile = s1.tmpfile := by
    unfold ovl_fill_super_upper_paths at hp
    simp only at hp
    repeat' split at hp
    all_goals cases hp
    all_goals rfl
  have e3 : s3.tmpfile = s2.tmpfile := by
    unfold ovl_fill_super_upper_checks at hc
    simp only at hc
    repeat' split at hc
    all_goals cases hc
    all_goals rfl
  have e4 : s4.tmpfile = s3.tmpfile := by
    unfold ovl_fill_super_split at hs
    simp only at hs
    repeat' split at hs
    all_goals cases hs
    all_goals rfl
  have e5 : s5.tmpfile = s4.tmpfile := by
    unfold ovl_fill_super_lowers at hl
    split at hl
    · exact (lowers_loop_tmpfile _ hl).trans rfl
    · cases hl
  have e6 : st.tmpfile = s5.tmpfile := by
    unfold ovl_fill_super_depth at hd
    simp only at hd
    repeat' split at hd
    all_goals cases hd
    all_goals rfl
  rw [e6, e5, e4, e3, e2, e1]

/-- C5. Whatever error `ovl_workdir_create` returns (an error pointer
`ERR_PTR(e)`, that is, `e` an errno from `-MAX_ERRNO` to `-1`, for which `IS_ERR`
holds), `ovl_fill_super` goes on:
it sets `MS_RDONLY` in `sb->s_flags`, leaves `ufs->workdir` `NULL`, prints the
warning and, without calling `ovl_check_d_type_supported` or `ovl_do_tmpfile`,
continues with the rest of the function; if every remaining step succeeds the
mount returns 0, read-only and without a work directory. -/
theorem ovl_fill_super_workdir_fallback (K : Kernel) (s_flags : Nat) (data : List Nat)
    (silent : Int) (st : OvlState) (up wp : Path) (mnt : Mount) (e : Int)
    (tr1 : List Event)
    (hpre : ovl_fill_super_to_workdir K s_flags data silent = Step.next st)
    (hud : st.config.upperdir ≠ none)
    (hup : st.upperpath = some up) (hwp : st.workpath = some wp)
    (hclone : K.clone_private_mount st.trace up = .ok mnt)
    (hcreate : ovl_workdir_create K mnt wp.dentry (st.trace ++ [Event.clone_private_mount])
        = some (.error e, tr1))
    (he : -K.consts.MAX_ERRNO ≤ e ∧ e < 0) :
    ovl_fill_super_workdir K st = Step.next
        { st with trace := tr1 ++ [Event.pr_warn (Msg.workdir_create_failed (-e))]
                  upper_mnt := some mnt
                  s_flags := st.s_flags ||| K.consts.MS_RDONLY
                  workdir := none }
      ∧ ovl_fill_super K s_flags data silent = ovl_fill_super_finish K
          { st with trace := tr1 ++ [Event.pr_warn (Msg.workdir_create_failed (-e))]
                    upper_mnt := some mnt
                    s_flags := st.s_flags ||| K.consts.MS_RDONLY
                    workdir := none }
      ∧ ((∀ tr, K.kmalloc tr = true) →
          (∀ tr p, ∃ m, K.clone_private_mount tr p = .ok m) →
          (∀ tr, K.prepare_creds tr = true) → (∀ tr, K.ovl_alloc_entry tr = true) →
          (∀ tr, K.d_make_root tr = true) →
          ∃ st1 evs, ovl_fill_super K s_flags data silent = Step.next st1
            ∧ st1.workdir = none ∧ st1.tmpfile = false
            ∧ st1.s_flags &&& K.consts.MS_RDONLY = K.consts.MS_RDONLY
            ∧ st1.trace = tr1 ++ [Event.pr_warn (Msg.workdir_create_failed (-e))] ++ evs
            ∧ Event.ovl_check_d_type_supported ∉ evs ∧ Event.ovl_do_tmpfile ∉ evs) := by
  have hw : ovl_fill_super_workdir K st = Step.next
      { st with trace := tr1 ++ [Event.pr_warn (Msg.workdir_create_failed (-e))]
                upper_mnt := some mnt
                s_flags := st.s_flags ||| K.consts.MS_RDONLY
                workdir := none } := by
    unfold ovl_fill_super_workdir
    cases hc : st.config.upperdir with
    | none => exact absurd hc hud
    | some u => simp [hup, hwp, hclone, hcreate, he]
  have hfull : ovl_fill_super K s_flags data silent = ovl_fill_super_finish K
      { st with trace := tr1 ++ [Event.pr_warn (Msg.workdir_create_failed (-e))]
                upper_mnt := some mnt
                s_flags := st.s_flags ||| K.consts.MS_RDONLY
                workdir := none } := by
    simp only [ovl_fill_super, hpre, hw, Step.andThen_next]
  refine ⟨hw, hfull, ?_⟩
  intro hmem hcl hcred hentry hroot
  obtain ⟨st1, evs, h1, h2, h3, h4⟩ := finish_ok
    { st with trace := tr1 ++ [Event.pr_warn (Msg.workdir_create_failed (-e))]
              upper_mnt := some mnt
              s_flags := st.s_flags ||| K.consts.MS_RDONLY
              workdir := none } hmem hcl hcred hentry hroot
  have f := finish_next h1
  have htmp : st.tmpfile = false := to_workdir_tmpfile hpre
  refine ⟨st1, evs, hfull.trans h1, ?_, ?_, ?_, h2, h3, h4⟩
  · rw [f.2.2.2.2.2.2.1]
  · rw [f.2.2.2.2.2.2.2.2.1]
    exact htmp
  · rw [f.2.2.2.2.2.2.2.2.2.1]
    simp only [Option.isNone_some, Bool.false_eq_true, if_false]
    exact or_or_and_self _ _ _

/-! ## The filename-length limit -/

theorem check_namelen_ok {K : Kernel} {f : Path → Int}
    (hstat : ∀ tr p, K.vfs_statfs tr p = .ok (f p)) (tr : List Event) (p : Path) (n : Int) :
    ovl_check_namelen K tr p n = (.ok (max n (f p)), tr ++ [Event.vfs_statfs]) := by
  unfold ovl_check_namelen
  rw [hstat]

theorem config_namelen {K : Kernel} {s_flags : Nat} {data : List Nat} {silent : Int}
    {st : OvlState} (h : ovl_fill_super_config K s_flags data silent = Step.next st) :
    st.namelen = 0 := by
  unfold ovl_fill_super_config at h
  simp only at h
  repeat' split at h
  all_goals cases h
  all_goals rfl

theorem upper_paths_namelen {K : Kernel} {f : Path → Int}
    (hstat : ∀ tr p, K.vfs_statfs tr p = .ok (f p)) {st st1 : OvlState}
    (h : ovl_fill_super_upper_paths K st = Step.next st1) :
    (st.config.upperdir = none → st1.namelen = st.namelen)
      ∧ (st.config.upperdir ≠ none →
          ∃ up, st1.upperpath = some up ∧ st1.namelen = max st.namelen (f up)) := by
  unfold ovl_fill_super_upper_paths at h
  simp only [check_namelen_ok hstat] at h
  repeat' split at h
  all_goals cases h
  all_goals simp_all

theorem upper_checks_namelen {K : Kernel} {st st1 : OvlState}
    (h : ovl_fill_super_upper_checks K st = Step.next st1) : st1.namelen = st.namelen := by
  unfold ovl_fill_super_upper_checks at h
  simp only at h
  repeat' split at h
  all_goals cases h
  all_goals rfl

theorem split_namelen {K : Kernel} {st st1 : OvlState}
    (h : ovl_fill_super_split K st = Step.next st1) : st1.namelen = st.namelen := by
  unfold ovl_fill_super_split at h
  simp only at h
  repeat' split at h
  all_goals cases h
  all_goals rfl

theorem depth_namelen {K : Kernel} {st st1 : OvlState}
    (h : ovl_fill_super_depth K st = Step.next st1) : st1.namelen = st.namelen := by
  unfold ovl_fill_super_depth at h
  simp only at h
  repeat' split at h
  all_goals cases h
  all_goals rfl

theorem workdir_namelen {K : Kernel} {st st1 : OvlState}
    (h : ovl_fill_super_workdir K st = Step.next st1) : st1.namelen = st.namelen := by
  unfold ovl_fill_super_workdir at h
  simp only at h
  repeat' split at h
  all_goals cases h
  all_goals simp_all

theorem clone_lowers_namelen {K : Kernel} (ps : List Path) :
    ∀ {err : Int} {st : OvlState} {r : Int × OvlState},
      ovl_fill_super_clone_lowers K ps err st = Step.next r → r.2.namelen = st.namelen := by
  induction ps with
  | nil =>
    intro err st r h
    rw [ovl_fill_super_clone_lowers] at h
    cases h
    rfl
  | cons p ps ih =>
    intro err st r h
    rw [ovl_fill_super_clone_lowers] at h
    split at h
    · cases h
    · exact (ih h).trans rfl

theorem finish_namelen {K : Kernel} {st st1 : OvlState}
    (h : ovl_fill_super_finish K st = Step.next st1) : st1.namelen = st.namelen := by
  unfold ovl_fill_super_finish at h
  split at h
  · obtain ⟨r, hr, h⟩ := Step.andThen_eq_next h
    have hf := clone_lowers_namelen _ hr
    simp only at h
    repeat' split at h
    all_goals cases h
    all_goals simp_all
  · cases h

theorem lower_dir_namelen {K : Kernel} {f : Path → Int}
    (hstat : ∀ tr p, K.vfs_statfs tr p = .ok (f p))
    {tr tr1 : List Event} {name : List Nat} {namelen depth : Int} {remote : Bool}
    {r : LowerDir} (h : ovl_lower_dir K tr name namelen depth remote = (.ok r, tr1)) :
    r.namelen = max namelen (f r.path) := by
  unfold ovl_lower_dir at h
  simp only [check_namelen_ok hstat] at h
  repeat' split at h
  all_goals cases h
  all_goals simp_all

theorem lowers_loop_namelen {K : Kernel} {f : Path → Int}
    (hstat : ∀ tr p, K.vfs_statfs tr p = .ok (f p)) (n : Nat) :
    ∀ {lower : Nat} {st st1 : OvlState},
      ovl_fill_super_lowers_loop K n lower st = Step.next st1 →
      ∃ new, st1.stack = st.stack ++ new
        ∧ st1.namelen = (new.map f).foldl max st.namelen := by
  induction n with
  | zero =>
    intro lower st st1 h
    rw [ovl_fill_super_lowers_loop] at h
    cases h
    exact ⟨[], by simp⟩
  | succ n ih =>
    intro lower st st1 h
    rw [ovl_fill_super_lowers_loop] at h
    split at h
    · cases h
    · rename_i r tr hl
      simp only at h
      split at h
      · cases h
      · obtain ⟨new, h1, h2⟩ := ih h
        have hn := lower_dir_namelen hstat hl
        refine ⟨r.path :: new, ?_, ?_⟩
        · simpa using h1
        · simp only [h2, hn, List.map_cons, List.foldl_cons]

theorem foldl_max_ge (l : List Int) : ∀ (b : Int),
    b ≤ l.foldl max b ∧ ∀ x ∈ l, x ≤ l.foldl max b := by
  induction l with
  | nil => intro b; simp
  | cons a l ih =>
    intro b
    obtain ⟨h1, h2⟩ := ih (max b a)
    refine ⟨le_trans (le_max_left b a) h1, ?_⟩
    intro x hx
    rcases List.mem_cons.mp hx with rfl | hx
    · exact le_trans (le_max_right b x) h1
    · exact h2 x hx

theorem to_depth_namelen {K : Kernel} {f : Path → Int}
    (hstat : ∀ tr p, K.vfs_statfs tr p = .ok (f p))
    {s_flags : Nat} {data : List Nat} {silent : Int} {st : OvlState}
    (h : ovl_fill_super_to_depth K s_flags data silent = Step.next st) :
    st.namelen = (st.stack.map f).foldl max
      (match st.upperpath with
        | some up => max 0 (f up)
        | none => 0) := by
  obtain ⟨s4, h4, hl⟩ := Step.andThen_eq_next h
  obtain ⟨s3, h3, hs⟩ := Step.andThen_eq_next h4
  obtain ⟨s2, h2, hc⟩ := Step.andThen_eq_next h3
  obtain ⟨s1, h1, hp⟩ := Step.andThen_eq_next h2
  have c := config_next h1
  have p := upper_paths_next hp
  have pn := upper_paths_namelen hstat hp
  have k := upper_checks_next hc
  have sp := split_next hs
  have n1 := config_namelen h1
  have n3 := upper_checks_namelen hc
  have n4 := split_namelen hs
  have hstack4 : s4.stack = [] := by rw [sp.1, k.1, p.1, c.1]
  have hup4 : s4.upperpath = s2.upperpath := by rw [sp.2.2.2.1, k.2.2.2.1]
  unfold ovl_fill_super_lowers at hl
  split at hl
  · obtain ⟨new, e1, e2⟩ := lowers_loop_namelen hstat _ hl
    obtain ⟨new', f1, _, _, _, _, f6, _⟩ := lowers_loop_next _ hl
    simp only [hstack4, List.nil_append] at e1 f6
    simp only at e2
    rw [e1, e2, f6, hup4, n4, n3]
    cases hu : s1.config.upperdir with
    | none =>
      rw [pn.1 hu, n1, (p.2.2.2.2.2.2.2.1 hu).1, c.2.2.1]
    | some u =>
      obtain ⟨up, g1, g2⟩ := pn.2 (by rw [hu]; simp)
      rw [g1, g2, n1]
  · cases hl

/-- C12. When every `vfs_statfs` query succeeds, with `f p` the `f_namelen` it
reports for the path `p`, a mount that succeeds records in `ufs->namelen` the
maximum of 0, of `f` of the upper path when an `upperdir` is configured, and of
`f` of every lower path: the value is at least 0 and at least the limit of every
layer (so it is their maximum, not their minimum), and `ovl_statfs` reports
exactly that value as `f_namelen`. -/
theorem ovl_fill_super_namelen_max (K : Kernel) (f : Path → Int) (s_flags : Nat)
    (data : List Nat) (silent : Int) (st : OvlState)
    (hstat : ∀ tr p, K.vfs_statfs tr p = .ok (f p))
    (hrun : ovl_fill_super K s_flags data silent = Step.next st) :
    st.namelen = (st.stack.map f).foldl max
        (match st.upperpath with
          | some up => max 0 (f up)
          | none => 0)
      ∧ (st.upperpath = none ↔ st.config.upperdir = none)
      ∧ 0 ≤ st.namelen
      ∧ (∀ up, st.upperpath = some up → f up ≤ st.namelen)
      ∧ (∀ p ∈ st.stack, f p ≤ st.namelen)
      ∧ (∀ (magic : Nat) (tr : List Event) (root : Path),
          ovl_statfs K magic tr st.namelen root
            = (.ok { f_namelen := (st.stack.map f).foldl max
                        (match st.upperpath with
                          | some up => max 0 (f up)
                          | none => 0)
                     f_type := magic }, tr ++ [Event.vfs_statfs])) := by
  obtain ⟨s7, h7, hf⟩ := Step.andThen_eq_next hrun
  obtain ⟨s6, h6, hw⟩ := Step.andThen_eq_next h7
  obtain ⟨s5, h5, hd⟩ := Step.andThen_eq_next h6
  have hn := to_depth_namelen hstat h5
  have hupd := (to_depth_next h5).2.2.1
  have d := depth_next hd
  have w := workdir_next hw
  have fi := finish_next hf
  have e_stack : st.stack = s5.stack := by rw [fi.1, w.1, d.1]
  have e_up : st.upperpath = s5.upperpath := by rw [fi.2.2.2.1, w.2.2.2.1, d.2.2.2.1]
  have e_cfg : st.config = s5.config := by rw [fi.2.2.1, w.2.2.1, d.2.2.1]
  have e_n : st.namelen = s5.namelen := by
    rw [finish_namelen hf, workdir_namelen hw, depth_namelen hd]
  have hmain : st.namelen = (st.stack.map f).foldl max
      (match st.upperpath with
        | some up => max 0 (f up)
        | none => 0) := by
    rw [e_n, e_stack, e_up]
    exact hn
  have hge := foldl_max_ge (st.stack.map f)
    (match st.upperpath with
      | some up => max 0 (f up)
      | none => 0)
  refine ⟨hmain, by rw [e_up, e_cfg]; exact hupd, ?_, ?_, ?_, ?_⟩
  · rw [hmain]
    refine le_trans ?_ hge.1
    cases st.upperpath with
    | none => exact le_refl _
    | some up => exact le_max_left _ _
  · intro up hup
    rw [hmain]
    refine le_trans ?_ hge.1
    rw [hup]
    exact le_max_right _ _
  · intro p hp
    rw [hmain]
    exact hge.2 (f p) (List.mem_map_of_mem f hp)
  · intro magic tr root
    unfold ovl_statfs
    rw [hstat, ← hmain]

/-- Witness of C12: with `lowerdir=/b:/a,upperdir=/u,workdir=/w` the limits are
127 on `/u`, 143 on `/b` and 255 on `/a`; the mount records 255, the maximum,
and `ovl_statfs` reports it. -/
theorem ovl_fill_super_namelen_max_witness :
    ∃ st, ovl_fill_super (test_kernel_namelen cfg_three) 0 [] 0 = Step.next st
      ∧ st.namelen = 255
      ∧ ovl_statfs (test_kernel_namelen cfg_three) 2035054128 [] st.namelen
            ⟨mnt_upper, local_dir 10⟩
          = (.ok { f_namelen := 255, f_type := 2035054128 }, [Event.vfs_statfs]) :=
  ⟨_, rfl,
    (ovl_fill_super_namelen_max (test_kernel_namelen cfg_three) test_namelen 0 [] 0 _
      (fun _ _ => rfl) rfl).1,
    (ovl_fill_super_namelen_max (test_kernel_namelen cfg_three) test_namelen 0 [] 0 _
      (fun _ _ => rfl) rfl).2.2.2.2.2 2035054128 [] ⟨mnt_upper, local_dir 10⟩⟩

/-! ## Concrete runs -/

/-- Witness of C4: on an upper directory whose `work` entry survives the
cleanup, the function looks up twice, cleans up once and returns
`ERR_PTR(-EEXIST)`. -/
theorem ovl_workdir_create_one_retry_witness :
    ∃ r evs, ovl_workdir_create (test_kernel_stuck cfg_upper) mnt_upper (local_dir 12) []
        = some (r, [] ++ evs)
      ∧ evs.count Event.lookup_one_len ≤ 2 ∧ evs.count Event.ovl_workdir_cleanup ≤ 1
      ∧ r = .error (-17)
      ∧ evs = [Event.mnt_want_write, Event.inode_lock, Event.lookup_one_len,
          Event.ovl_workdir_cleanup, Event.dput, Event.lookup_one_len, Event.dput,
          Event.inode_unlock, Event.mnt_drop_write] := by
  obtain ⟨r, evs, h1, h2, h3, h4⟩ :=
    ovl_workdir_create_one_retry (test_kernel_stuck cfg_upper) mnt_upper (local_dir 12) []
  obtain ⟨evs2, h5, _, _, h6⟩ := (h4 rfl _ rfl).2 (by decide)
  obtain ⟨h7, h8⟩ := h6 _ rfl (by decide)
  exact ⟨r, evs, h1, h2, h3, h7, by rw [h5, h8]; rfl⟩

/-- Witness of C2: `lowerdir=/a` without `upperdir` splits into one entry and is
rejected with `-EINVAL` before any lower path is looked up. -/
theorem ovl_fill_super_layer_count_witness :
    (ovl_fill_super (test_kernel cfg_single) 0 [] 0).value = some (-22)
      ∧ (ovl_fill_super (test_kernel cfg_single) 0 [] 0).state.map (fun st => st.trace)
          = some [Event.kzalloc, Event.ovl_parse_opt, Event.kstrdup,
                  Event.pr_err Msg.need_two_lowerdir] :=
  have h := ((ovl_fill_super_layer_count (test_kernel cfg_single) 0 [] 0).2
    _ [47, 97] 1 [47, 97, 0] rfl rfl rfl rfl).2.2.1 rfl rfl
  ⟨congrArg Step.value h, congrArg (fun r => r.state.map (fun st => st.trace)) h⟩

/-- Witness of C3: with `lowerdir=/d:/b` the first layer has depth 2, the new
depth would be 3 and the mount is rejected with `-EINVAL`; with `lowerdir=/a:/b`
the deepest layer has depth 1, the new depth is 2, the limit, and the mount
succeeds with that depth. -/
theorem ovl_fill_super_stack_depth_witness :
    (ovl_fill_super (test_kernel cfg_deep) 0 [] 0).value = some (-22)
      ∧ (ovl_fill_super (test_kernel cfg_deep) 0 [] 0).state.map (fun st => st.s_stack_depth)
          = some 3
      ∧ ∃ st1, ovl_fill_super (test_kernel cfg_two) 0 [] 0 = Step.next st1
          ∧ st1.s_stack_depth = 2 :=
  have h := (ovl_fill_super_stack_depth (test_kernel cfg_deep) 0 [] 0 _ rfl
    (by decide)).2.1 (by decide)
  ⟨congrArg Step.value h, congrArg (fun r => r.state.map (fun st => st.s_stack_depth)) h,
    _, rfl,
    ((ovl_fill_super_stack_depth (test_kernel cfg_two) 0 [] 0 _ rfl
      (by decide)).2.2 (by decide)).2 _ rfl⟩

/-- Witness of C5: with `upperdir=/u,workdir=/w` on an upper directory whose
`work` entry survives the cleanup, `ovl_workdir_create` fails with `-EEXIST` and
the mount still returns 0, read-only and without a work directory. -/
theorem ovl_fill_super_workdir_fallback_witness :
    ∃ st1 evs, ovl_fill_super (test_kernel_stuck cfg_upper) 0 [] 0 = Step.next st1
      ∧ st1.workdir = none ∧ st1.tmpfile = false
      ∧ st1.s_flags &&& 1 = 1
      ∧ st1.trace = [Event.kzalloc, Event.ovl_parse_opt, Event.kstrdup,
            Event.kern_path [47, 117], Event.vfs_statfs, Event.kstrdup,
            Event.kern_path [47, 119], Event.lock_rename, Event.unlock_rename,
            Event.kstrdup, Event.kcalloc, Event.kern_path [47, 97], Event.vfs_statfs,
            Event.clone_private_mount, Event.mnt_want_write, Event.inode_lock,
            Event.lookup_one_len, Event.ovl_workdir_cleanup, Event.dput,
            Event.lookup_one_len, Event.dput, Event.inode_unlock, Event.mnt_drop_write]
          ++ [Event.pr_warn (Msg.workdir_create_failed (- -17))] ++ evs
      ∧ Event.ovl_check_d_type_supported ∉ evs ∧ Event.ovl_do_tmpfile ∉ evs :=
  (ovl_fill_super_workdir_fallback (test_kernel_stuck cfg_upper) 0 [] 0 _
    ⟨mnt_upper, local_dir 10⟩ ⟨mnt_upper, local_dir 12⟩ ⟨101, ⟨0, 0⟩⟩ (-17) _
    rfl (by decide) rfl rfl rfl rfl (by decide)).2.2
    (fun _ => rfl) (fun _ p => ⟨_, rfl⟩) (fun _ => rfl) (fun _ => rfl) (fun _ => rfl)

/-- Witness of C9 (scenario B): `/u/work-parent` lies under `/u`, so
`ovl_workdir_ok` is false for them and `upperdir=/u,workdir=/u/work-parent` is
rejected with `-EINVAL`. -/
theorem ovl_workdir_ok_separate_subtrees_witness :
    ((ovl_workdir_ok (test_kernel cfg_nested) [] (local_dir 11) (local_dir 10)).1 = false
        ↔ ((local_dir 11).id = (local_dir 10).id ∨ test_ancestor (local_dir 11) (local_dir 10)
            ∨ test_ancestor (local_dir 10) (local_dir 11)))
      ∧ ∃ st1, ovl_fill_super (test_kernel cfg_nested) 0 [] 0 = Step.ret (-22) st1
          ∧ st1.stack = [] :=
  ⟨(ovl_workdir_ok_separate_subtrees (test_kernel cfg_nested)).1 test_ancestor []
      (local_dir 11) (local_dir 10)
      (by simp [test_kernel, test_ancestor, local_dir]),
   (ovl_workdir_ok_separate_subtrees (test_kernel cfg_nested)).2 0 [] 0 _
      ⟨mnt_upper, local_dir 10⟩ ⟨mnt_upper, local_dir 11⟩ rfl (by decide) rfl rfl rfl⟩

/-- Witness of C10: with `lowerdir=/b:/n` the second layer is remote and the
mount installs `ovl_reval_dentry_operations`; as an upper directory the remote
`/n` is rejected by `ovl_mount_dir` with `-EINVAL`. -/
theorem ovl_fill_super_dentry_ops_witness :
    (∃ st, ovl_fill_super (test_kernel cfg_remote) 0 [] 0 = Step.next st
        ∧ st.s_d_op = some DentryOps.ovl_reval_dentry_operations)
      ∧ ovl_mount_dir (test_kernel cfg_remote) [] [47, 110]
          = some (.error (-22), [Event.kstrdup, Event.kern_path [47, 110],
              Event.pr_err Msg.not_supported_as_upperdir, Event.path_put]) :=
  ⟨⟨_, rfl, ((ovl_fill_super_dentry_ops (test_kernel cfg_remote)).1 0 [] 0 _ rfl).1⟩,
   (ovl_fill_super_dentry_ops (test_kernel cfg_remote)).2.1 [] _ [47, 110] [47, 110, 0]
      ⟨mnt_net, ⟨25, some 25, false, true, true⟩⟩ rfl rfl rfl rfl⟩

/-! ## Runs at the edges of the C types -/

/-- With a lower layer of depth `INT_MAX` the increment of `s_stack_depth` wraps
to `INT_MIN`, the depth check passes and the mount returns 0. -/
theorem ovl_fill_super_depth_wraps :
    (ovl_fill_super (test_kernel_int_max cfg_two) 0 [] 0).value = some 0
      ∧ (ovl_fill_super (test_kernel_int_max cfg_two) 0 [] 0).state.map
          (fun st => st.s_stack_depth) = some (-2147483648) := by
  decide

/-- When `ovl_workdir_create` returns `ERR_PTR(-4096)`, which is not `IS_ERR`, the
mount does not fall back to read-only: the code goes on with that pointer as
its work directory. -/
theorem ovl_fill_super_workdir_not_is_err :
    ovl_workdir_create (test_kernel_bad_errno cfg_upper) ⟨101, ⟨0, 0⟩⟩ (local_dir 12)
        [Event.kzalloc, Event.ovl_parse_opt, Event.kstrdup, Event.kern_path [47, 117],
          Event.vfs_statfs, Event.kstrdup, Event.kern_path [47, 119], Event.lock_rename,
          Event.unlock_rename, Event.kstrdup, Event.kcalloc, Event.kern_path [47, 97],
          Event.vfs_statfs, Event.clone_private_mount]
        = some (.error (-4096),
            [Event.kzalloc, Event.ovl_parse_opt, Event.kstrdup, Event.kern_path [47, 117],
              Event.vfs_statfs, Event.kstrdup, Event.kern_path [47, 119], Event.lock_rename,
              Event.unlock_rename, Event.kstrdup, Event.kcalloc, Event.kern_path [47, 97],
              Event.vfs_statfs, Event.clone_private_mount, Event.mnt_want_write,
              Event.inode_lock, Event.lookup_one_len, Event.ovl_workdir_cleanup, Event.dput,
              Event.lookup_one_len, Event.ovl_create_real, Event.dput, Event.inode_unlock,
              Event.mnt_drop_write])
      ∧ (ovl_fill_super (test_kernel_bad_errno cfg_upper) 0 [] 0).value = none :=
  ⟨by rfl, by decide⟩

end Overlayfs
